import Mathlib

/-!
# The Oracle dialect of gorm: column types and key names

A shallow embedding of `dialect_oracle.go`.

Go strings are modelled as Lean strings, that is as valid UTF-8 text: a rune is
a `Char`, `utf8.RuneCountInString` is the number of characters, `len` is the
number of bytes of the UTF-8 encoding. A panic is the value `none`.
-/

set_option autoImplicit false

/-! ## Strings: the parts of `strings`, `unicode/utf8` and `fmt` that the dialect uses -/

namespace utf8

/-- Rune count of a string, `utf8.RuneCountInString`. -/
def RuneCountInString (s : String) : Nat := s.data.length

/-- The UTF-8 encoding of one rune, as byte values. -/
def encodeRune (c : Char) : List Nat :=
  let v := c.toNat
  if v < 0x80 then [v]
  else if v < 0x800 then [0xC0 ||| (v >>> 6), 0x80 ||| (v &&& 0x3F)]
  else if v < 0x10000 then
    [0xE0 ||| (v >>> 12), 0x80 ||| ((v >>> 6) &&& 0x3F), 0x80 ||| (v &&& 0x3F)]
  else
    [0xF0 ||| (v >>> 18), 0x80 ||| ((v >>> 12) &&& 0x3F), 0x80 ||| ((v >>> 6) &&& 0x3F),
      0x80 ||| (v &&& 0x3F)]

/-- The bytes of a string, `[]byte(s)`. -/
def bytes (s : String) : List Nat := s.data.flatMap encodeRune

/-- Byte length of a string, Go's builtin `len(s)`. -/
def len (s : String) : Nat := (bytes s).length

/-- Characters of the byte prefix `s[:n]`: a character is kept when all its bytes lie
within the first `n` bytes. The slice is exact when the cut falls on a character
boundary, which is always the case for ASCII text. -/
def prefixChars : Nat → List Char → List Char
  | _, [] => []
  | n, c :: cs =>
    if (encodeRune c).length ≤ n then c :: prefixChars (n - (encodeRune c).length) cs else []

/-- The slice expression `s[:n]`, which panics when `n` exceeds `len(s)`. -/
def slicePrefix (s : String) (n : Nat) : Option String :=
  if n ≤ len s then some (String.mk (prefixChars n s.data)) else none

end utf8

namespace fmt

/-- One hexadecimal digit, lowercase. -/
def hexDigit (n : Nat) : Char :=
  if n < 10 then Char.ofNat (48 + n) else Char.ofNat (87 + n)

/-- The verb `%x` applied to a byte slice: two lowercase hexadecimal digits per byte. -/
def hexBytes (bs : List Nat) : List Char :=
  bs.flatMap (fun b => [hexDigit ((b / 16) % 16), hexDigit (b % 16)])

/-- The verb `%d` applied to an integer. -/
def formatInt (i : Int) : String :=
  match i with
  | Int.ofNat n => Nat.repr n
  | Int.negSucc n => "-" ++ Nat.repr (n + 1)

end fmt

/-! ## SHA-1, as computed by `crypto/sha1` -/

namespace sha1

/-- Rotation of a 32-bit word to the left. -/
def rotl (x n : Nat) : Nat := ((x <<< n) ||| (x >>> (32 - n))) % 2 ^ 32

/-- Big-endian bytes of a 64-bit value. -/
def be64 (v : Nat) : List Nat :=
  [(v >>> 56) % 256, (v >>> 48) % 256, (v >>> 40) % 256, (v >>> 32) % 256,
   (v >>> 24) % 256, (v >>> 16) % 256, (v >>> 8) % 256, v % 256]

/-- Big-endian bytes of a 32-bit word. -/
def be32 (v : Nat) : List Nat :=
  [(v >>> 24) % 256, (v >>> 16) % 256, (v >>> 8) % 256, v % 256]

/-- The padded message: `0x80`, zeros up to 56 modulo 64, then the bit length. -/
def pad (msg : List Nat) : List Nat :=
  let l := msg.length
  let t := if l % 64 < 56 then 56 - l % 64 else 64 + 56 - l % 64
  msg ++ 0x80 :: List.replicate (t - 1) 0 ++ be64 ((l <<< 3) % 2 ^ 64)

/-- Big-endian 32-bit words of a byte sequence (whole words only). -/
def words : List Nat → List Nat
  | a :: b :: c :: d :: rest => ((a <<< 24) ||| (b <<< 16) ||| (c <<< 8) ||| d) :: words rest
  | _ => []

/-- Extends the message schedule by `n` words; `rev` holds the words so far, latest first. -/
def extend : Nat → List Nat → List Nat
  | 0, rev => rev
  | n + 1, rev =>
    let w := rotl (rev.getD 2 0 ^^^ rev.getD 7 0 ^^^ rev.getD 13 0 ^^^ rev.getD 15 0) 1
    extend n (w :: rev)

/-- The 80 words of the message schedule of one 16-word block. -/
def schedule (block : List Nat) : List Nat := (extend 64 block.reverse).reverse

/-- The five working variables, also the five words of the chaining value. -/
structure State where
  a : Nat
  b : Nat
  c : Nat
  d : Nat
  e : Nat
deriving DecidableEq, Repr

/-- The initial chaining value. -/
def init : State := ⟨0x67452301, 0xEFCDAB89, 0x98BADCFE, 0x10325476, 0xC3D2E1F0⟩

/-- One round with round function value `f` and constant `k` on schedule word `w`. -/
def step (s : State) (f k w : Nat) : State :=
  ⟨(rotl s.a 5 + f + s.e + w + k) % 2 ^ 32, s.a, rotl s.b 30, s.c, s.d⟩

/-- Round `i` of the compression function. -/
def round (s : State) (i w : Nat) : State :=
  if i < 20 then step s ((s.b &&& s.c) ||| ((s.b ^^^ 0xFFFFFFFF) &&& s.d)) 0x5A827999 w
  else if i < 40 then step s (s.b ^^^ s.c ^^^ s.d) 0x6ED9EBA1 w
  else if i < 60 then step s (((s.b ||| s.c) &&& s.d) ||| (s.b &&& s.c)) 0x8F1BBCDC w
  else step s (s.b ^^^ s.c ^^^ s.d) 0xCA62C1D6 w

/-- Runs the rounds over the schedule words, counting rounds from `i`. -/
def rounds : State → Nat → List Nat → State
  | s, _, [] => s
  | s, i, w :: ws => rounds (round s i w) (i + 1) ws

/-- The compression function on one block of 16 words. -/
def compress (h : State) (block : List Nat) : State :=
  let r := rounds h 0 (schedule block)
  ⟨(h.a + r.a) % 2 ^ 32, (h.b + r.b) % 2 ^ 32, (h.c + r.c) % 2 ^ 32, (h.d + r.d) % 2 ^ 32,
    (h.e + r.e) % 2 ^ 32⟩

/-- Processes `n` successive blocks of 16 words. -/
def blocks : Nat → State → List Nat → State
  | 0, h, _ => h
  | n + 1, h, ws => blocks n (compress h (ws.take 16)) (ws.drop 16)

/-- The 20-byte digest of a message, `h.Write(msg); h.Sum(nil)` on a fresh hash. -/
def Sum (msg : List Nat) : List Nat :=
  let ws := words (pad msg)
  let h := blocks (ws.length / 16) init ws
  be32 h.a ++ be32 h.b ++ be32 h.c ++ be32 h.d ++ be32 h.e

end sha1

/-! ## Key names -/

/-- The class `[a-zA-Z]`. -/
def isLetter (c : Char) : Bool := ('a' ≤ c ∧ c ≤ 'z') ∨ ('A' ≤ c ∧ c ≤ 'Z')

/-- The class `[^a-zA-Z]`. -/
def nonLetter (c : Char) : Bool := !isLetter c

/-- The character `_`. -/
def isUnderscore (c : Char) : Bool := c = '_'

/-- Number of leading characters in the class `p`: what a greedy `p*` consumes. -/
def span (p : Char → Bool) : List Char → Nat
  | [] => 0
  | c :: cs => if p c then span p cs + 1 else 0

/-- The first alternative `_*[^a-zA-Z]+_*` at the start of `s`, searched the way a
backtracking matcher does: the leading `_*` gives back one underscore at a time,
starting from `k` of them; `[^a-zA-Z]+` and the trailing `_*` are greedy (the trailing
star cannot fail, so the plus never gives anything back). The value is the length of
the match. -/
def matchFirstAlt (s : List Char) : Nat → Option Nat
  | 0 =>
    let m := span nonLetter s
    if 1 ≤ m then some (m + span isUnderscore (s.drop m)) else none
  | k + 1 =>
    let m := span nonLetter (s.drop (k + 1))
    if 1 ≤ m then some (k + 1 + m + span isUnderscore (s.drop (k + 1 + m)))
    else matchFirstAlt s k

/-- The second alternative `_+` at the start of `s`. -/
def matchSecondAlt (s : List Char) : Option Nat :=
  if 1 ≤ span isUnderscore s then some (span isUnderscore s) else none

/-- Length of the match of `(_*[^a-zA-Z]+_*|_+)` at the start of `s`, leftmost-first:
the first alternative is preferred to the second. -/
def matchKeyChars (s : List Char) : Option Nat :=
  match matchFirstAlt s (span isUnderscore s) with
  | some n => some n
  | none => matchSecondAlt s

/-- The scan of `ReplaceAllString(s, "_")` for the pattern above: `skip` characters of
the current match remain to be passed over; at a position where the pattern matches the
match is replaced by `_`, elsewhere the character is copied. The pattern matches no
empty string. -/
def replaceKeyChars : Nat → List Char → List Char
  | _, [] => []
  | skip + 1, _ :: cs => replaceKeyChars skip cs
  | 0, c :: cs =>
    match matchKeyChars (c :: cs) with
    | some (n + 1) => '_' :: replaceKeyChars n cs
    | _ => c :: replaceKeyChars 0 cs

/-- The prefix fragment
`regexp.MustCompile("(_*[^a-zA-Z]+_*|_+)").ReplaceAllString(field, "_")`. -/
def sanitizeField (field : String) : String := String.mk (replaceKeyChars 0 field.data)

namespace commonDialect

/-- Modelled from the spec: the generic naming convention of the embedded
`commonDialect`, whose `BuildKeyName` is not part of this file:
`kind_table_field1_field2...`, the parts joined by underscores. -/
def BuildKeyName (kind tableName : String) (fields : List String) : String :=
  kind ++ "_" ++ tableName ++ "_" ++ "_".intercalate fields

end commonDialect

namespace oracle

/-- The concatenation `fmt.Sprintf("%s%x", string(destRunes), bs)` of the shortening
branch, for the first field name and the generic key name. -/
def shortName (field keyName : String) : String :=
  sanitizeField field ++ String.mk (fmt.hexBytes (sha1.Sum (utf8.bytes keyName)))

/-- The method `oracle.BuildKeyName`: the generic name when it has at most 30 runes,
else the sanitized first field name followed by the hexadecimal SHA-1 of the generic
name, cut to its first 29 bytes when longer than 30 bytes. `fields[0]` panics on an
empty field list. -/
def BuildKeyName (kind tableName : String) (fields : List String) : Option String :=
  let keyName := commonDialect.BuildKeyName kind tableName fields
  if utf8.RuneCountInString keyName ≤ 30 then some keyName
  else
    match fields with
    | [] => none
    | field :: _ =>
      let result := shortName field keyName
      if utf8.len result ≤ 30 then some result
      else utf8.slicePrefix result 29

end oracle

/-! ## More of the standard library: `unicode`, `strings`, `strconv` -/

namespace unicode

/-- The predicate `unicode.IsSpace`: the Latin-1 spaces and the runes with the
property White_Space. -/
def IsSpace (c : Char) : Bool :=
  let v := c.toNat
  (9 ≤ v ∧ v ≤ 13) ∨ v = 0x20 ∨ v = 0x85 ∨ v = 0xA0 ∨ v = 0x1680 ∨ (0x2000 ≤ v ∧ v ≤ 0x200A) ∨
    v = 0x2028 ∨ v = 0x2029 ∨ v = 0x202F ∨ v = 0x205F ∨ v = 0x3000

/-- The mapping `unicode.ToLower`: ASCII letters are lowered by adding 32, other ASCII
runes are kept, and a rune outside ASCII is looked up in the case table of the Unicode
tables, here the parameter `table`. -/
def ToLower (table : Char → Char) (c : Char) : Char :=
  if c.toNat < 0x80 then
    if 'A' ≤ c ∧ c ≤ 'Z' then Char.ofNat (c.toNat + 32) else c
  else table c

/-- A case table to evaluate examples with: it lowers the capital letters of Latin-1 and
maps U+0130 and U+212A to `i` and `k`, the two runes outside ASCII whose lower case is an
ASCII letter; every other rune is left as it is. On ASCII text no table is consulted. -/
def latin1Table (c : Char) : Char :=
  let v := c.toNat
  if v = 0x130 then 'i'
  else if v = 0x212A then 'k'
  else if 0xC0 ≤ v ∧ v ≤ 0xDE ∧ v ≠ 0xD7 then Char.ofNat (v + 32)
  else c

end unicode

namespace strings

/-- Characters left after dropping the leading white space. -/
def trimLeft (s : List Char) : List Char := s.dropWhile unicode.IsSpace

/-- Characters left after dropping the trailing white space. -/
def trimRight (s : List Char) : List Char := (s.reverse.dropWhile unicode.IsSpace).reverse

/-- The function `strings.TrimSpace`: leading and trailing white space removed. -/
def TrimSpace (s : String) : String := String.mk (trimRight (trimLeft s.data))

/-- Leading white space removed: the left half of `strings.TrimSpace`. -/
def TrimLeftSpace (s : String) : String := String.mk (trimLeft s.data)

/-- The call `strings.TrimRightFunc(s, unicode.IsSpace)`: trailing white space removed. -/
def TrimRightSpace (s : String) : String := String.mk (trimRight s.data)

/-- The function `strings.ToLower`, over the case table `table` for non-ASCII runes. -/
def ToLower (table : Char → Char) (s : String) : String :=
  String.mk (s.data.map (unicode.ToLower table))

/-- Whether `sub` occurs in `s`, on characters. -/
def containsChars (sub : List Char) : List Char → Bool
  | [] => sub.isEmpty
  | c :: cs => sub.isPrefixOf (c :: cs) || containsChars sub cs

/-- The function `strings.Contains`. -/
def Contains (s sub : String) : Bool := containsChars sub.data s.data

/-- Replaces the leftmost occurrence of `old` by `new`, on characters. -/
def replaceFirstChars (old new : List Char) : List Char → List Char
  | [] => if old.isEmpty then new else []
  | c :: cs =>
    if old.isPrefixOf (c :: cs) then new ++ (c :: cs).drop old.length
    else c :: replaceFirstChars old new cs

/-- The call `strings.Replace(s, old, new, 1)`: only the first occurrence is replaced. -/
def ReplaceFirst (s old new : String) : String :=
  String.mk (replaceFirstChars old.data new.data s.data)

end strings

namespace strconv

/-- The digit loop of `strconv.ParseUint(s, 10, 64)`: `none` on a character that is not a
digit (syntax error); on overflow the loop stops at once with the largest value. -/
def parseDigits : Nat → List Char → Option Nat
  | n, [] => some n
  | n, c :: cs =>
    if '0' ≤ c ∧ c ≤ '9' then
      let n1 := n * 10 + (c.toNat - 48)
      if 2 ^ 64 - 1 < n1 then some (2 ^ 64 - 1) else parseDigits n1 cs
    else none

/-- The value returned by `strconv.Atoi(s)` with a 64-bit `int`, the error dropped: `0`
on a syntax error, the nearest bound on a range error. -/
def Atoi (s : String) : Int :=
  match s.data with
  | [] => 0
  | c :: cs =>
    let digits := if c = '+' ∨ c = '-' then cs else c :: cs
    match digits with
    | [] => 0
    | _ =>
      match parseDigits 0 digits with
      | none => 0
      | some un =>
        if c = '-' then
          if 2 ^ 63 < un then -(2 ^ 63 : Int) else -(un : Int)
        else
          if 2 ^ 63 ≤ un then (2 ^ 63 - 1 : Int) else (un : Int)

end strconv

/-! ## Dynamic values, `fmt.Sprint` and `strconv.ParseInt` with base 0 -/

/-- A value passed as `interface{}`, other than `nil`: an integer of some integer type, or
a string. Values of other dynamic types are left out. -/
inductive Arg where
  | int (value : Int)
  | str (value : String)
deriving DecidableEq

namespace fmt

/-- The call `fmt.Sprint(v)`: an integer in decimal, a string as it is. -/
def Sprint : Arg → String
  | .int value => formatInt value
  | .str value => value

/-- The verb `%d` applied to a value: an integer in decimal; for a string the verb is
wrong and `fmt` writes `%!d(string=...)`. -/
def verbD : Arg → String
  | .int value => formatInt value
  | .str value => "%!d(string=" ++ value ++ ")"

end fmt

namespace strconv

/-- The value of a character as a digit in `ParseUint`: `0` to `9`, then the letters in
either case from 10 on. -/
def digitValue (c : Char) : Option Nat :=
  if '0' ≤ c ∧ c ≤ '9' then some (c.toNat - 48)
  else if 'a' ≤ c ∧ c ≤ 'z' then some (c.toNat - 97 + 10)
  else if 'A' ≤ c ∧ c ≤ 'Z' then some (c.toNat - 65 + 10)
  else none

/-- The digit loop of `ParseUint` called with base 0, once the base is read off the
prefix: underscores are skipped, and a character that is no digit of the base is a syntax
error, `none`. The value is exact; the caller checks the range. -/
def parseDigitsIn (base : Nat) : Nat → List Char → Option Nat
  | n, [] => some n
  | n, c :: cs =>
    if c = '_' then parseDigitsIn base n cs
    else
      match digitValue c with
      | none => none
      | some d => if base ≤ d then none else parseDigitsIn base (n * base + d) cs

/-- The last character seen by `underscoreOK`: nothing yet, a digit, an underscore, or
something else. -/
inductive Saw where
  | start
  | digit
  | underscore
  | other
deriving DecidableEq

/-- The loop of `underscoreOK`: an underscore must follow a digit and be followed by a
digit. -/
def underscoreScan (hex : Bool) : Saw → List Char → Bool
  | saw, [] => saw ≠ .underscore
  | saw, c :: cs =>
    if ('0' ≤ c ∧ c ≤ '9') ∨ (hex = true ∧ (('a' ≤ c ∧ c ≤ 'f') ∨ ('A' ≤ c ∧ c ≤ 'F'))) then
      underscoreScan hex .digit cs
    else if c = '_' then
      if saw ≠ .digit then false else underscoreScan hex .underscore cs
    else if saw = .underscore then false
    else underscoreScan hex .other cs

/-- Whether `c` is the letter `l` in either case, `lower(c) == l`. -/
def isLetterOf (c l upper : Char) : Bool := c = l ∨ c = upper

/-- The function `underscoreOK`: an optional sign, an optional base prefix that counts as
a digit, then the loop. -/
def underscoreOK (s : List Char) : Bool :=
  let s := match s with
    | c :: cs => if c = '-' ∨ c = '+' then cs else c :: cs
    | [] => []
  match s with
  | z :: p :: rest =>
    if z = '0' ∧ (isLetterOf p 'b' 'B' ∨ isLetterOf p 'o' 'O' ∨ isLetterOf p 'x' 'X') then
      underscoreScan (isLetterOf p 'x' 'X') .digit rest
    else underscoreScan false .start s
  | _ => underscoreScan false .start s

/-- The base and the digits that `ParseUint` with base 0 reads off the prefix: `0b`, `0o`,
`0x` before at least one more byte, else a leading `0` for octal, else decimal. -/
def basePrefix (s : List Char) : Nat × List Char :=
  match s with
  | z :: p :: r :: rest =>
    if z = '0' then
      if isLetterOf p 'b' 'B' then (2, r :: rest)
      else if isLetterOf p 'o' 'O' then (8, r :: rest)
      else if isLetterOf p 'x' 'X' then (16, r :: rest)
      else (8, p :: r :: rest)
    else (10, s)
  | z :: rest => if z = '0' then (8, rest) else (10, s)
  | [] => (10, s)

/-- The call `strconv.ParseUint(s, 0, 0)` with a 64-bit `int`, `none` for any error: the
empty string, a syntax error, a value above the largest `uint64`, or misplaced
underscores. -/
def ParseUint (s : List Char) : Option Nat :=
  match s with
  | [] => none
  | _ =>
    match parseDigitsIn (basePrefix s).1 0 (basePrefix s).2 with
    | none => none
    | some n =>
      if 2 ^ 64 - 1 < n then none
      else if (basePrefix s).2.contains '_' ∧ underscoreOK s = false then none
      else some n

/-- The call `strconv.ParseInt(s, 0, 0)` with a 64-bit `int`: the value when the error is
`nil`, else `none`. -/
def ParseInt (s : String) : Option Int :=
  match s.data with
  | [] => none
  | c :: cs =>
    match ParseUint (if c = '+' ∨ c = '-' then cs else c :: cs) with
    | none => none
    | some un =>
      if c = '-' then
        if 2 ^ 63 < un then none else some (-(un : Int))
      else
        if 2 ^ 63 ≤ un then none else some (un : Int)

end strconv

namespace oracle

/-- The method `oracle.LimitAndOffsetSQL`: the filter is appended when the limit is not
`nil` and its printed form parses to a value that is not negative; the verb `%d` is
applied to `limit` itself. The offset is not read and the error is never set. -/
def LimitAndOffsetSQL (limit _offset : Option Arg) : String × Option String :=
  let sql :=
    match limit with
    | none => ""
    | some l =>
      match strconv.ParseInt (fmt.Sprint l) with
      | some parsedLimit => if 0 ≤ parsedLimit then "" ++ " ROWNUM <= " ++ fmt.verbD l else ""
      | none => ""
  (sql, none)

end oracle

/-! ## Reflected types and values -/

/-- The enumeration `reflect.Kind`. -/
inductive reflect.Kind where
  | Invalid | Bool | Int | Int8 | Int16 | Int32 | Int64
  | Uint | Uint8 | Uint16 | Uint32 | Uint64 | Uintptr
  | Float32 | Float64 | Complex64 | Complex128
  | Array | Chan | Func | Interface | Map | Ptr | Slice | String | Struct | UnsafePointer
deriving DecidableEq

/-- The kinds of the types the resolver never looks inside: every kind except
pointer, array, slice and struct. -/
inductive BasicKind where
  | Bool | Int | Int8 | Int16 | Int32 | Int64
  | Uint | Uint8 | Uint16 | Uint32 | Uint64 | Uintptr
  | Float32 | Float64 | Complex64 | Complex128
  | Chan | Func | Interface | Map | String | UnsafePointer
deriving DecidableEq

/-- The `reflect.Kind` of a basic kind. -/
def BasicKind.toKind : BasicKind → reflect.Kind
  | .Bool => .Bool | .Int => .Int | .Int8 => .Int8 | .Int16 => .Int16 | .Int32 => .Int32
  | .Int64 => .Int64 | .Uint => .Uint | .Uint8 => .Uint8 | .Uint16 => .Uint16
  | .Uint32 => .Uint32 | .Uint64 => .Uint64 | .Uintptr => .Uintptr | .Float32 => .Float32
  | .Float64 => .Float64 | .Complex64 => .Complex64 | .Complex128 => .Complex128
  | .Chan => .Chan | .Func => .Func | .Interface => .Interface | .Map => .Map
  | .String => .String | .UnsafePointer => .UnsafePointer

/-- What the method set of a type tells the resolver. -/
structure Methods where
  /-- The result of `GormDataType(dialect)` for this dialect, when the value type has the
  method (the custom type hook). -/
  gormDataType : Option String
  /-- Whether the pointer to the type implements `sql.Scanner`. -/
  scanner : Bool
deriving DecidableEq

/-- How the first field of a struct is declared. -/
inductive FieldAccess where
  | exported
  | unexported
  | embeddedUnexported
deriving DecidableEq

/-- A reflected Go type, as far as the resolver inspects it: its kind, its qualified name
(empty for an unnamed type), its methods, the element type of a pointer, array or slice,
and the first field of a struct. Types are finite. -/
inductive GoType where
  | basic (kind : BasicKind) (name : String) (methods : Methods)
  | ptr (elem : GoType)
  | array (name : String) (methods : Methods) (len : Nat) (elem : GoType)
  | slice (name : String) (methods : Methods) (elem : GoType)
  | structEmpty (name : String) (methods : Methods)
  | struct (name : String) (methods : Methods) (access : FieldAccess) (first : GoType)
deriving DecidableEq

namespace GoType

/-- The method `Kind()` of a type. -/
def Kind : GoType → reflect.Kind
  | basic k _ _ => k.toKind
  | ptr _ => .Ptr
  | array _ _ _ _ => .Array
  | slice _ _ _ => .Slice
  | structEmpty _ _ => .Struct
  | struct _ _ _ _ => .Struct

/-- The methods of a type; a pointer type declares none. -/
def methods : GoType → Methods
  | basic _ _ m => m
  | ptr _ => ⟨none, false⟩
  | array _ m _ _ => m
  | slice _ m _ => m
  | structEmpty _ m => m
  | struct _ m _ _ => m

/-- The predeclared type `uint8`, alias `byte`. -/
def uint8 : GoType := basic .Uint8 "uint8" ⟨none, false⟩

/-- The predeclared type `uint64`. -/
def uint64 : GoType := basic .Uint64 "uint64" ⟨none, false⟩

/-- The type `time.Time`, a struct whose first field is the unexported `wall uint64`. -/
def timeTime : GoType := struct "time.Time" ⟨none, false⟩ .unexported uint64

end GoType

namespace reflect

/-- A `reflect.Value`, as far as the resolver inspects it: its type and the two read-only
flags that `Field` sets on a value reached through an unexported field. -/
structure Value where
  typ : GoType
  stickyRO : Bool
  embedRO : Bool
deriving DecidableEq

/-- The zero value `reflect.Indirect(reflect.New(t))`, with no flag set. -/
def zero (t : GoType) : Value := ⟨t, false, false⟩

/-- Whether `Interface()` panics on the value: it does when one of the two read-only
flags is set. -/
def Value.readOnly (v : Value) : Bool := v.stickyRO || v.embedRO

end reflect

/-- The loop `for reflectType.Kind() == reflect.Ptr { reflectType = reflectType.Elem() }`. -/
def indirectType : GoType → GoType
  | .ptr elem => indirectType elem
  | t => t

/-- The closure `getScannerValue` applied to a value of type `t` carrying the flags
`sticky` and `embed`: while the pointer to the type is a `sql.Scanner` and the kind is
struct, go on with `Field(0)`, which inherits the sticky flag and sets a flag of its own
when the field is unexported. `Field(0)` panics on a struct without fields. -/
def getScannerValue : GoType → Bool → Bool → Option reflect.Value
  | .struct name m access first, sticky, embed =>
    if m.scanner then
      getScannerValue first (sticky || access = .unexported) (access = .embeddedUnexported)
    else some ⟨.struct name m access first, sticky, embed⟩
  | .structEmpty name m, sticky, embed =>
    if m.scanner then none else some ⟨.structEmpty name m, sticky, embed⟩
  | t, sticky, embed => some ⟨t, sticky, embed⟩

/-- Modelled from the spec: the helper `IsByteArrayOrSlice`, which is not part of this
file: the value is a byte sequence, an array or a slice of bytes. -/
def IsByteArrayOrSlice (value : reflect.Value) : Bool :=
  match value.typ with
  | .array _ _ _ elem => elem = GoType.uint8
  | .slice _ _ elem => elem = GoType.uint8
  | _ => false

/-- A field of a model struct: the reflected type `field.Struct.Type` and the tag
settings. -/
structure StructField where
  structType : GoType
  TagSettings : List (String × String)

/-- Modelled from the spec: the tag lookup `TagSettingsGet`, which is not part of this
file: the value of the key, and whether the key is present. -/
def StructField.TagSettingsGet (field : StructField) (key : String) : String × Bool :=
  match field.TagSettings.lookup key with
  | some v => (v, true)
  | none => ("", false)

/-- The `switch` on the lowered `TYPE` setting, lines 186 to 201. -/
def normalizeType (table : Char → Char) (dataType : String) : String :=
  let lower := strings.ToLower table dataType
  if lower = "bigint" then "NUMBER(19)"
  else if lower = "integer" then "NUMBER(10)"
  else if lower = "datetime" then "TIMESTAMP"
  else if lower = "tinyint" then "NUMBER(3)"
  else if strings.Contains lower "nvarchar" then
    strings.ReplaceFirst dataType "nvarchar" "nvarchar2"
  else if strings.Contains lower "binary" then
    strings.ReplaceFirst dataType "binary" "raw"
  else dataType

/-- The type string `dataType` after the custom type hook, lines 183 to 214: the result
of the hook when the value type has it, else the normalized `TYPE` setting. -/
def fixedType (table : Char → Char) (field : StructField) : String :=
  let dataType := normalizeType table (field.TagSettingsGet "TYPE").1
  match (indirectType field.structType).methods.gormDataType with
  | some hook => hook
  | none => dataType

/-- The size, lines 229 to 233: the `SIZE` setting read by `Atoi`, 255 without it. -/
def fieldSize (field : StructField) : Int :=
  match field.TagSettingsGet "SIZE" with
  | (num, true) => strconv.Atoi num
  | (_, false) => 255

/-- The modifiers before the final trim, lines 236 to 247. -/
def rawAdditionalType (field : StructField) : String :=
  let notNull := (field.TagSettingsGet "NOT NULL").1
  let unique := (field.TagSettingsGet "UNIQUE").1
  let additionalType := notNull ++ " " ++ unique
  let additionalType :=
    match field.TagSettingsGet "DEFAULT" with
    | (value, true) => " DEFAULT " ++ value ++ " " ++ additionalType
    | (_, false) => additionalType
  match field.TagSettingsGet "COMMENT" with
  | (value, true) => additionalType ++ " COMMENT " ++ value
  | (_, false) => additionalType

/-- The modifiers `additionalType` that the parse returns, line 249. -/
def additionalTypeOf (field : StructField) : String :=
  strings.TrimSpace (rawAdditionalType field)

/-- The function `ParseFieldStructForDialectOracle`: the field value, the type string,
the size and the trimmed modifiers. The scanner is unwrapped only when no type string is
fixed. -/
def ParseFieldStructForDialectOracle (table : Char → Char) (field : StructField) :
    Option (reflect.Value × String × Int × String) :=
  let reflectType := indirectType field.structType
  let fieldValue := reflect.zero reflectType
  let dataType := fixedType table field
  let size := fieldSize field
  let additionalType := additionalTypeOf field
  if dataType = "" then
    match getScannerValue fieldValue.typ fieldValue.stickyRO fieldValue.embedRO with
    | none => none
    | some value => some (value, dataType, size, additionalType)
  else some (fieldValue, dataType, size, additionalType)

namespace oracle

/-- The `switch` on the kind of the value, lines 43 to 80; the empty string when no case
sets the type, `none` when `Interface()` panics. -/
def kindType (dataValue : reflect.Value) (size : Int) : Option String :=
  match dataValue.typ.Kind with
  | .Bool => some "CHAR(1)"
  | .Int | .Int8 | .Int16 | .Int32 | .Uint | .Uint8 | .Uint16 | .Uint32 | .Uintptr =>
    some "NUMBER(10)"
  | .Int64 | .Uint64 => some "NUMBER(19)"
  | .Float32 | .Float64 => some "FLOAT"
  | .String =>
    if 0 < size ∧ size < 4000 then some ("VARCHAR2(" ++ fmt.formatInt size ++ ")")
    else some "VARCHAR2(255)"
  | .Struct =>
    if dataValue.readOnly then none
    else if dataValue.typ = GoType.timeTime then some "TIMESTAMP" else some ""
  | _ => if IsByteArrayOrSlice dataValue then some "BLOB" else some ""

/-- The type `sqlType` reached at line 88, or the panic of line 85. -/
def sqlTypeOf (dataValue : reflect.Value) (sqlType : String) (size : Int) : Option String :=
  match (if sqlType = "" then kindType dataValue size else some sqlType) with
  | none => none
  | some sqlType => if sqlType = "" then none else some sqlType

/-- The end of `DataTypeOf`, lines 88 to 91. -/
def withAdditionalType (sqlType additionalType : String) : String :=
  if strings.TrimSpace additionalType = "" then sqlType
  else sqlType ++ " " ++ additionalType

/-- The method `oracle.DataTypeOf`. -/
def DataTypeOf (table : Char → Char) (field : StructField) : Option String :=
  match ParseFieldStructForDialectOracle table field with
  | none => none
  | some (dataValue, sqlType, size, additionalType) =>
    match sqlTypeOf dataValue sqlType size with
    | none => none
    | some sqlType => some (withAdditionalType sqlType additionalType)

/-- The base type of `DataTypeOf`: the value of `sqlType` before the modifiers are
appended. -/
def baseType (table : Char → Char) (field : StructField) : Option String :=
  match ParseFieldStructForDialectOracle table field with
  | none => none
  | some (dataValue, sqlType, size, _) => sqlTypeOf dataValue sqlType size

/-- The values that the claims list as resolvable: a boolean, an integer kind, a float
kind, a string, a `time.Time` struct, a byte array or slice. -/
def listedKind (value : reflect.Value) : Bool :=
  match value.typ.Kind with
  | .Bool => true
  | .Int | .Int8 | .Int16 | .Int32 | .Int64 => true
  | .Uint | .Uint8 | .Uint16 | .Uint32 | .Uint64 | .Uintptr => true
  | .Float32 | .Float64 => true
  | .String => true
  | .Struct => value.typ = GoType.timeTime
  | _ => IsByteArrayOrSlice value

end oracle

/-! ## The modifier clauses, as the specification words them -/

namespace spec

/-- The clause `DEFAULT <value>`; empty when the `DEFAULT` setting is absent. -/
def defaultClause (field : StructField) : String :=
  match field.TagSettingsGet "DEFAULT" with
  | (value, true) => "DEFAULT " ++ value
  | (_, false) => ""

/-- The clause of the `NOT NULL` setting: its value, empty when unset. -/
def notNullClause (field : StructField) : String := (field.TagSettingsGet "NOT NULL").1

/-- The clause of the `UNIQUE` setting: its value, empty when unset. -/
def uniqueClause (field : StructField) : String := (field.TagSettingsGet "UNIQUE").1

/-- The clause `COMMENT <value>`; empty when the `COMMENT` setting is absent. -/
def commentClause (field : StructField) : String :=
  match field.TagSettingsGet "COMMENT" with
  | (value, true) => "COMMENT " ++ value
  | (_, false) => ""

/-- Whether a clause is set, that is not empty. -/
def isSet (clause : String) : Bool := clause ≠ ""

/-- A clause prefixed with a single space; nothing for a clause that is not set. -/
def spaced (clause : String) : String := if isSet clause then " " ++ clause else ""

/-- The modifier tail of the specification: the clauses in the fixed order, each only if
set, each prefixed with a single space. -/
def modifierTail (field : StructField) : String :=
  spaced (defaultClause field) ++ spaced (notNullClause field) ++
    spaced (uniqueClause field) ++ spaced (commentClause field)

/-- One space when `b` holds, else nothing. -/
def gap (b : Bool) : String := if b then " " else ""

/-- The four clauses in the fixed order, joined as the parse joins them before the trim:
a present `DEFAULT` clause between two spaces, the `NOT NULL` value, a space, the
`UNIQUE` value, a present `COMMENT` clause after a space. -/
def orderedClauses (field : StructField) : String :=
  gap (field.TagSettingsGet "DEFAULT").2 ++ defaultClause field ++
    gap (field.TagSettingsGet "DEFAULT").2 ++ notNullClause field ++ " " ++
    uniqueClause field ++ gap (field.TagSettingsGet "COMMENT").2 ++ commentClause field

/-- Whether a fragment has no white space at either end. -/
def trimmed (fragment : String) : Bool := strings.TrimSpace fragment = fragment

/-- Whether the modifier settings of a field are fragments without surrounding white
space, those of `DEFAULT` and `COMMENT` being non-empty when present. -/
def cleanSettings (field : StructField) : Bool :=
  trimmed (notNullClause field) && trimmed (uniqueClause field) &&
    (match field.TagSettingsGet "DEFAULT" with
      | (value, true) => isSet value && trimmed value
      | (_, false) => true) &&
    (match field.TagSettingsGet "COMMENT" with
      | (value, true) => isSet value && trimmed value
      | (_, false) => true)

/-- Whether the clauses that are set leave no empty `NOT NULL` or `UNIQUE` slot between
two of them. -/
def contiguous (field : StructField) : Bool :=
  !(isSet (defaultClause field) && !isSet (notNullClause field) &&
      (isSet (uniqueClause field) || isSet (commentClause field))) &&
    !(isSet (commentClause field) && !isSet (uniqueClause field) &&
      (isSet (defaultClause field) || isSet (notNullClause field)))

end spec

/-! ## The sanitized field name and the scanner unwrapping, as the specification words them -/

namespace spec

/-- Every maximal run of characters that are not ASCII letters replaced by one
underscore, the letters kept: `inRun` tells that the character before was not a letter,
so that its run has its underscore already. -/
def collapseRuns : Bool → List Char → List Char
  | _, [] => []
  | inRun, c :: cs =>
    if isLetter c then c :: collapseRuns false cs
    else if inRun then collapseRuns true cs
    else '_' :: collapseRuns true cs

/-- Whether no two adjacent characters are both underscores. -/
def noAdjacentUnderscores : List Char → Bool
  | a :: b :: rest => !(a = '_' && b = '_') && noAdjacentUnderscores (b :: rest)
  | _ => true

/-- Whether a type is a struct whose pointer is a `sql.Scanner`. -/
def isScannerStruct : GoType → Bool
  | .struct _ m _ _ => m.scanner
  | .structEmpty _ m => m.scanner
  | _ => false

/-- The type `t` is reached from a type by taking the first member again and again while
the current type is a scanner struct. -/
inductive Unwraps : GoType → GoType → Prop where
  | stop (t : GoType) : isScannerStruct t = false → Unwraps t t
  | first (name : String) (m : Methods) (access : FieldAccess) (member t : GoType) :
      m.scanner = true → Unwraps member t → Unwraps (.struct name m access member) t

end spec

/-! ## Sample types and fields -/

namespace sample

/-- The predeclared type `string`. -/
def string : GoType := .basic .String "string" ⟨none, false⟩

/-- The predeclared type `bool`. -/
def bool : GoType := .basic .Bool "bool" ⟨none, false⟩

/-- The predeclared type `int64`. -/
def int64 : GoType := .basic .Int64 "int64" ⟨none, false⟩

/-- A text field with `SIZE:50` and `NOT NULL`. -/
def nameField : StructField := ⟨string, [("SIZE", "50"), ("NOT NULL", "NOT NULL")]⟩

/-- A boolean field tagged `TYPE:BigInt`. -/
def flagField : StructField := ⟨bool, [("TYPE", "BigInt")]⟩

/-- A defined string type `JSON` whose method `GormDataType` returns `CLOB`. -/
def jsonType : GoType := .basic .String "main.JSON" ⟨some "CLOB", false⟩

/-- A field of type `JSON` tagged `TYPE:bigint`. -/
def jsonField : StructField := ⟨jsonType, [("TYPE", "bigint")]⟩

/-- A struct `Money` with an exported first field of type `int64`, whose method
`GormDataType` returns the empty string for this dialect. -/
def moneyType : GoType := .struct "main.Money" ⟨some "", false⟩ .exported int64

/-- A field of type `Money` tagged `TYPE:bigint`. -/
def moneyField : StructField := ⟨moneyType, [("TYPE", "bigint")]⟩

/-- A struct `Point` with an exported first field of type `int64`, without hook, whose
pointer is no `sql.Scanner`. -/
def pointType : GoType := .struct "main.Point" ⟨none, false⟩ .exported int64

/-- A field of type `Point` without tag settings. -/
def pointField : StructField := ⟨pointType, []⟩

/-- The scanner struct `sql.NullTime`, whose first field is the exported
`Time time.Time`. -/
def sqlNullTimeType : GoType := .struct "sql.NullTime" ⟨none, true⟩ .exported GoType.timeTime

/-- A field of type `sql.NullTime` without tag settings. -/
def sqlNullTimeField : StructField := ⟨sqlNullTimeType, []⟩

/-- A text field with `SIZE:50`, `NOT NULL` and a comment, without `UNIQUE`. -/
def commentedField : StructField :=
  ⟨string, [("SIZE", "50"), ("NOT NULL", "NOT NULL"), ("COMMENT", "\x27name\x27")]⟩

/-- A text field with all four modifiers. -/
def fullField : StructField :=
  ⟨string, [("SIZE", "50"), ("DEFAULT", "\x27n/a\x27"), ("NOT NULL", "NOT NULL"),
    ("UNIQUE", "UNIQUE"), ("COMMENT", "\x27name\x27")]⟩

/-- A field of type `int64` tagged `NOT NULL`. -/
def countField : StructField := ⟨int64, [("NOT NULL", "NOT NULL")]⟩

/-- A field of type `*bool` without tag settings. -/
def activeField : StructField := ⟨.ptr bool, []⟩

/-- A text field tagged `TYPE:CLOB` and `SIZE:50`. -/
def clobField : StructField := ⟨string, [("TYPE", "CLOB"), ("SIZE", "50")]⟩

/-- A text field tagged `TYPE:NVARCHAR(50)`, in capital letters. -/
def upperNvarcharField : StructField := ⟨string, [("TYPE", "NVARCHAR(50)")]⟩

/-- A field of type `[]byte` tagged `TYPE:VARBINARY(16)`, in capital letters. -/
def upperBinaryField : StructField :=
  ⟨.slice "" ⟨none, false⟩ GoType.uint8, [("TYPE", "VARBINARY(16)")]⟩

/-- A text field tagged `TYPE:NVARCHAR nvarchar(5)`. -/
def mixedNvarcharField : StructField := ⟨string, [("TYPE", "NVARCHAR nvarchar(5)")]⟩

/-- A text field tagged `TYPE:nvarchar2(50)`, the type already in the dialect form. -/
def nvarchar2Field : StructField := ⟨string, [("TYPE", "nvarchar2(50)")]⟩

/-- A text field with `SIZE:50` and no other setting. -/
def sizeField : StructField := ⟨string, [("SIZE", "50")]⟩

/-- A text field with `SIZE:50` and a `DEFAULT` setting whose value is empty. -/
def emptyDefaultField : StructField := ⟨string, [("SIZE", "50"), ("DEFAULT", "")]⟩

/-- A text field with `SIZE:50` and a `COMMENT` setting whose value is empty. -/
def emptyCommentField : StructField := ⟨string, [("SIZE", "50"), ("COMMENT", "")]⟩

/-- A text field with `SIZE:50` and a `NOT NULL` setting whose value is empty. -/
def emptyNotNullField : StructField := ⟨string, [("SIZE", "50"), ("NOT NULL", "")]⟩

/-- The scanner struct `sql.NullInt64`, whose first field is the exported `Int64 int64`. -/
def nullInt64Type : GoType := .struct "sql.NullInt64" ⟨none, true⟩ .exported int64

/-- A field of type `*sql.NullInt64` without tag settings. -/
def nullInt64Field : StructField := ⟨.ptr nullInt64Type, []⟩

/-- A field of type `sql.NullInt64` tagged `TYPE:CLOB`. -/
def nullInt64ClobField : StructField := ⟨nullInt64Type, [("TYPE", "CLOB")]⟩

/-- A text field whose `DEFAULT` value starts with a space, with `NOT NULL`. -/
def paddedDefaultField : StructField :=
  ⟨string, [("DEFAULT", " 0"), ("NOT NULL", "NOT NULL")]⟩

end sample

/-! ## Facts about characters and strings -/

theorem char_le_iff (a b : Char) : a ≤ b ↔ a.toNat ≤ b.toNat := by
  simp only [Char.le_def, UInt32.le_def, BitVec.le_def, Char.toNat, UInt32.toNat]

theorem isLetter_iff (c : Char) :
    isLetter c = true ↔ (97 ≤ c.toNat ∧ c.toNat ≤ 122) ∨ (65 ≤ c.toNat ∧ c.toNat ≤ 90) := by
  simp only [isLetter, Bool.decide_or, Bool.decide_and, Bool.or_eq_true, Bool.and_eq_true,
    decide_eq_true_eq, char_le_iff]
  rfl

theorem isLetter_ascii (c : Char) (h : isLetter c = true) : c.toNat < 128 := by
  rw [isLetter_iff] at h
  omega

theorem hexDigit_ascii : ∀ n, n < 16 → (fmt.hexDigit n).toNat < 128 := by decide

theorem hexBytes_length (bs : List Nat) : (fmt.hexBytes bs).length = 2 * bs.length := by
  induction bs with
  | nil => rfl
  | cons b bs ih =>
    simp only [fmt.hexBytes, List.flatMap_cons, List.length_append, List.length_cons,
      List.length_nil] at ih ⊢
    omega

theorem hexBytes_ascii (bs : List Nat) : ∀ c ∈ fmt.hexBytes bs, c.toNat < 128 := by
  induction bs with
  | nil => intro c hc; simp [fmt.hexBytes] at hc
  | cons b bs ih =>
    intro c hc
    simp only [fmt.hexBytes, List.flatMap_cons, List.mem_append, List.mem_cons,
      List.mem_singleton, List.not_mem_nil, or_false] at hc ih
    rcases hc with (rfl | rfl) | hc
    · exact hexDigit_ascii _ (Nat.mod_lt _ (by decide))
    · exact hexDigit_ascii _ (Nat.mod_lt _ (by decide))
    · exact ih c hc

theorem sha1_Sum_length (msg : List Nat) : (sha1.Sum msg).length = 20 := by
  simp [sha1.Sum, sha1.be32]

theorem encodeRune_ascii (c : Char) (h : c.toNat < 128) : (utf8.encodeRune c).length = 1 := by
  simp [utf8.encodeRune, h]

theorem prefixChars_ascii (s : List Char) (h : ∀ c ∈ s, c.toNat < 128) (n : Nat) :
    utf8.prefixChars n s = s.take n := by
  induction s generalizing n with
  | nil => simp [utf8.prefixChars]
  | cons c cs ih =>
    have hc : (utf8.encodeRune c).length = 1 := encodeRune_ascii c (h c (List.mem_cons_self _ _))
    have hcs : ∀ d ∈ cs, d.toNat < 128 := fun d hd => h d (List.mem_cons_of_mem _ hd)
    cases n with
    | zero => simp [utf8.prefixChars, hc]
    | succ n => simp [utf8.prefixChars, hc, ih hcs]

theorem bytes_length_ascii (s : List Char) (h : ∀ c ∈ s, c.toNat < 128) :
    (s.flatMap utf8.encodeRune).length = s.length := by
  induction s with
  | nil => rfl
  | cons c cs ih =>
    have hc : (utf8.encodeRune c).length = 1 := encodeRune_ascii c (h c (List.mem_cons_self _ _))
    have hcs : ∀ d ∈ cs, d.toNat < 128 := fun d hd => h d (List.mem_cons_of_mem _ hd)
    simp [List.flatMap_cons, hc, ih hcs, Nat.add_comm]

/-! ## Facts about the sanitized field name -/

theorem span_nonLetter_pos (c : Char) (cs : List Char) (h : nonLetter c = true) :
    1 ≤ span nonLetter (c :: cs) := by
  simp [span, h]

theorem matchFirstAlt_pos (c : Char) (cs : List Char) (h : nonLetter c = true) (k : Nat) :
    ∃ n, matchFirstAlt (c :: cs) k = some (n + 1) := by
  induction k with
  | zero =>
    have hp := span_nonLetter_pos c cs h
    refine ⟨span nonLetter (c :: cs) - 1 + span isUnderscore ((c :: cs).drop (span nonLetter (c :: cs))), ?_⟩
    simp only [matchFirstAlt, hp, if_true]
    congr 1
    omega
  | succ k ih =>
    by_cases hm : 1 ≤ span nonLetter ((c :: cs).drop (k + 1))
    · refine ⟨k + span nonLetter ((c :: cs).drop (k + 1)) +
        span isUnderscore ((c :: cs).drop (k + 1 + span nonLetter ((c :: cs).drop (k + 1)))), ?_⟩
      simp only [matchFirstAlt, hm, if_true]
      congr 1
      omega
    · simpa only [matchFirstAlt, hm, if_false] using ih

theorem matchKeyChars_pos (c : Char) (cs : List Char) (h : nonLetter c = true) :
    ∃ n, matchKeyChars (c :: cs) = some (n + 1) := by
  obtain ⟨n, hn⟩ := matchFirstAlt_pos c cs h (span isUnderscore (c :: cs))
  exact ⟨n, by simp [matchKeyChars, hn]⟩

theorem replaceKeyChars_mem (s : List Char) :
    ∀ skip, ∀ c ∈ replaceKeyChars skip s, c = '_' ∨ isLetter c = true := by
  induction s with
  | nil => intro skip c hc; simp [replaceKeyChars] at hc
  | cons a as ih =>
    intro skip c hc
    cases skip with
    | succ k =>
      rw [replaceKeyChars] at hc
      exact ih k c hc
    | zero =>
      by_cases ha : nonLetter a = true
      · obtain ⟨n, hn⟩ := matchKeyChars_pos a as ha
        simp only [replaceKeyChars, hn, List.mem_cons] at hc
        rcases hc with rfl | hc
        · exact Or.inl rfl
        · exact ih n c hc
      · have hl : isLetter a = true := by simpa [nonLetter] using ha
        rw [replaceKeyChars] at hc
        split at hc
        · rcases List.mem_cons.mp hc with rfl | hc
          · exact Or.inl rfl
          · exact ih _ c hc
        · rcases List.mem_cons.mp hc with rfl | hc
          · exact Or.inr hl
          · exact ih 0 c hc

theorem sanitizeField_ascii (field : String) : ∀ c ∈ (sanitizeField field).data, c.toNat < 128 := by
  intro c hc
  rcases replaceKeyChars_mem field.data 0 c hc with rfl | h
  · decide
  · exact isLetter_ascii c h

theorem shortName_data (field keyName : String) :
    (oracle.shortName field keyName).data =
      (sanitizeField field).data ++ fmt.hexBytes (sha1.Sum (utf8.bytes keyName)) := by
  simp [oracle.shortName, String.data_append]

theorem shortName_ascii (field keyName : String) :
    ∀ c ∈ (oracle.shortName field keyName).data, c.toNat < 128 := by
  intro c hc
  rw [shortName_data, List.mem_append] at hc
  rcases hc with hc | hc
  · exact sanitizeField_ascii field c hc
  · exact hexBytes_ascii _ c hc

theorem shortName_length (field keyName : String) :
    (oracle.shortName field keyName).data.length = (sanitizeField field).data.length + 40 := by
  rw [shortName_data, List.length_append, hexBytes_length, sha1_Sum_length]

theorem shortName_len (field keyName : String) :
    utf8.len (oracle.shortName field keyName) = (sanitizeField field).data.length + 40 := by
  rw [utf8.len, utf8.bytes, bytes_length_ascii _ (shortName_ascii field keyName),
    shortName_length]

/-- In the shortening branch the name is always cut: it is the first 29 characters of the
sanitized first field name followed by the 40 hexadecimal digits. -/
theorem BuildKeyName_long (kind tableName field : String) (rest : List String)
    (h : 30 < utf8.RuneCountInString (commonDialect.BuildKeyName kind tableName (field :: rest))) :
    oracle.BuildKeyName kind tableName (field :: rest) =
      some (String.mk ((oracle.shortName field
        (commonDialect.BuildKeyName kind tableName (field :: rest))).data.take 29)) := by
  have h1 : ¬ utf8.RuneCountInString
      (commonDialect.BuildKeyName kind tableName (field :: rest)) ≤ 30 := by omega
  have h2 := shortName_len field (commonDialect.BuildKeyName kind tableName (field :: rest))
  simp only [oracle.BuildKeyName, h1, if_false, utf8.slicePrefix, h2]
  rw [if_neg (by omega), if_pos (by omega), prefixChars_ascii _ (shortName_ascii _ _)]

/-! ## Key names: the claims -/

/-- C1: for every naming request with a non-empty list of field names,
`oracle.BuildKeyName` returns a name without panicking, and whenever the generic
candidate has more than 30 characters the returned name has at most 30 characters (and at
most 30 bytes). -/
theorem BuildKeyName_returns_bounded (kind tableName : String) (fields : List String)
    (hne : fields ≠ []) :
    ∃ name, oracle.BuildKeyName kind tableName fields = some name ∧
      (30 < utf8.RuneCountInString (commonDialect.BuildKeyName kind tableName fields) →
        utf8.RuneCountInString name ≤ 30 ∧ utf8.len name ≤ 30) := by
  cases fields with
  | nil => exact absurd rfl hne
  | cons field rest =>
    by_cases h : 30 < utf8.RuneCountInString
        (commonDialect.BuildKeyName kind tableName (field :: rest))
    · refine ⟨_, BuildKeyName_long kind tableName field rest h, fun _ => ?_⟩
      have hascii : ∀ c ∈ (oracle.shortName field
          (commonDialect.BuildKeyName kind tableName (field :: rest))).data.take 29,
          c.toNat < 128 :=
        fun c hc => shortName_ascii _ _ c (List.mem_of_mem_take hc)
      have hlen : ((oracle.shortName field
          (commonDialect.BuildKeyName kind tableName (field :: rest))).data.take 29).length
          ≤ 30 := by
        rw [List.length_take]
        omega
      refine ⟨hlen, ?_⟩
      rw [utf8.len, utf8.bytes, bytes_length_ascii _ hascii]
      exact hlen
    · refine ⟨commonDialect.BuildKeyName kind tableName (field :: rest), ?_, fun h' => absurd h' h⟩
      have h1 : utf8.RuneCountInString
          (commonDialect.BuildKeyName kind tableName (field :: rest)) ≤ 30 := by omega
      simp only [oracle.BuildKeyName, h1, if_true]

set_option maxRecDepth 100000 in
/-- Witness of C1: the request `idx`, `orders`, `customer_identifier_reference_code`. -/
theorem BuildKeyName_returns_bounded_witness :
    ["customer_identifier_reference_code"] ≠ [] ∧
    ∃ name, oracle.BuildKeyName "idx" "orders" ["customer_identifier_reference_code"]
        = some name ∧
      (30 < utf8.RuneCountInString
          (commonDialect.BuildKeyName "idx" "orders" ["customer_identifier_reference_code"]) →
        utf8.RuneCountInString name ≤ 30 ∧ utf8.len name ≤ 30) :=
  ⟨by decide,
    BuildKeyName_returns_bounded "idx" "orders" ["customer_identifier_reference_code"]
      (by decide)⟩

/-- C2: when the generic candidate has at most 30 characters, `oracle.BuildKeyName`
returns exactly that candidate. -/
theorem BuildKeyName_short_unchanged (kind tableName : String) (fields : List String)
    (h : utf8.RuneCountInString (commonDialect.BuildKeyName kind tableName fields) ≤ 30) :
    oracle.BuildKeyName kind tableName fields =
      some (commonDialect.BuildKeyName kind tableName fields) := by
  simp only [oracle.BuildKeyName, h, if_true]

set_option maxRecDepth 100000 in
/-- Witness of C2: the request `idx`, `users`, `name`, `email`, whose candidate
`idx_users_name_email` has 20 characters. -/
theorem BuildKeyName_short_unchanged_witness :
    utf8.RuneCountInString (commonDialect.BuildKeyName "idx" "users" ["name", "email"]) ≤ 30 ∧
    oracle.BuildKeyName "idx" "users" ["name", "email"] = some "idx_users_name_email" :=
  ⟨by decide, BuildKeyName_short_unchanged "idx" "users" ["name", "email"] (by decide)⟩

set_option maxRecDepth 100000 in
/-- C3, counterexample: the requests `idx` and `uix` on table `orders` with the single
field `customer_identifier_reference_code` have different candidates of 45 characters
and the same first field name, and get the same shortened name. -/
theorem BuildKeyName_collision :
    30 < utf8.RuneCountInString
      (commonDialect.BuildKeyName "idx" "orders" ["customer_identifier_reference_code"]) ∧
    30 < utf8.RuneCountInString
      (commonDialect.BuildKeyName "uix" "orders" ["customer_identifier_reference_code"]) ∧
    commonDialect.BuildKeyName "idx" "orders" ["customer_identifier_reference_code"] ≠
      commonDialect.BuildKeyName "uix" "orders" ["customer_identifier_reference_code"] ∧
    oracle.BuildKeyName "idx" "orders" ["customer_identifier_reference_code"] =
      oracle.BuildKeyName "uix" "orders" ["customer_identifier_reference_code"] := by
  decide

/-- C3, amended: two requests with long candidates and the same first field name get
different shortened names exactly when the hexadecimal SHA-1 digests of their candidates
differ within the digits that the cut at 29 characters keeps, that is within the first
`29 - p` digits, `p` being the length of the sanitized first field name. -/
theorem BuildKeyName_differ_iff (kind₁ table₁ kind₂ table₂ field : String)
    (rest₁ rest₂ : List String)
    (h₁ : 30 < utf8.RuneCountInString (commonDialect.BuildKeyName kind₁ table₁ (field :: rest₁)))
    (h₂ : 30 < utf8.RuneCountInString (commonDialect.BuildKeyName kind₂ table₂ (field :: rest₂))) :
    oracle.BuildKeyName kind₁ table₁ (field :: rest₁) ≠
        oracle.BuildKeyName kind₂ table₂ (field :: rest₂) ↔
      (fmt.hexBytes (sha1.Sum (utf8.bytes
          (commonDialect.BuildKeyName kind₁ table₁ (field :: rest₁))))).take
          (29 - (sanitizeField field).data.length) ≠
      (fmt.hexBytes (sha1.Sum (utf8.bytes
          (commonDialect.BuildKeyName kind₂ table₂ (field :: rest₂))))).take
          (29 - (sanitizeField field).data.length) := by
  rw [BuildKeyName_long _ _ _ _ h₁, BuildKeyName_long _ _ _ _ h₂, shortName_data,
    shortName_data, List.take_append_eq_append_take, List.take_append_eq_append_take]
  simp only [ne_eq, Option.some.injEq, String.ext_iff, List.append_cancel_left_eq]

set_option maxRecDepth 100000 in
/-- Witness of C3, amended: the requests `idx` and `uix` on table `orders` with the fields
`customer_id`, `created_at_timestamp`. -/
theorem BuildKeyName_differ_iff_witness :
    30 < utf8.RuneCountInString
      (commonDialect.BuildKeyName "idx" "orders" ["customer_id", "created_at_timestamp"]) ∧
    30 < utf8.RuneCountInString
      (commonDialect.BuildKeyName "uix" "orders" ["customer_id", "created_at_timestamp"]) ∧
    (oracle.BuildKeyName "idx" "orders" ["customer_id", "created_at_timestamp"] ≠
        oracle.BuildKeyName "uix" "orders" ["customer_id", "created_at_timestamp"] ↔
      (fmt.hexBytes (sha1.Sum (utf8.bytes
          (commonDialect.BuildKeyName "idx" "orders"
            ["customer_id", "created_at_timestamp"])))).take
          (29 - (sanitizeField "customer_id").data.length) ≠
      (fmt.hexBytes (sha1.Sum (utf8.bytes
          (commonDialect.BuildKeyName "uix" "orders"
            ["customer_id", "created_at_timestamp"])))).take
          (29 - (sanitizeField "customer_id").data.length)) :=
  ⟨by decide, by decide,
    BuildKeyName_differ_iff "idx" "orders" "uix" "orders" "customer_id"
      ["created_at_timestamp"] ["created_at_timestamp"] (by decide) (by decide)⟩

set_option maxRecDepth 100000 in
/-- C4, counterexample: for `idx`, `orders`, `customer_identifier_reference_code` the
returned name is `customer_identifier_reference`, which has 29 characters, not 30. -/
theorem BuildKeyName_example_29 :
    oracle.BuildKeyName "idx" "orders" ["customer_identifier_reference_code"] =
      some "customer_identifier_reference" ∧
    utf8.RuneCountInString "customer_identifier_reference" = 29 ∧
    utf8.RuneCountInString "customer_identifier_reference" ≠ 30 := by
  decide

set_option maxRecDepth 100000 in
/-- C4, amended: for `idx`, `orders`, `customer_identifier_reference_code` the generic
candidate has 45 characters and `oracle.BuildKeyName` returns a name of exactly 29
characters, the first 29 characters of the sanitized first field name followed by the
hexadecimal digest, and this name begins with `customer_`. -/
theorem BuildKeyName_example :
    utf8.RuneCountInString
      (commonDialect.BuildKeyName "idx" "orders" ["customer_identifier_reference_code"]) = 45 ∧
    ∃ name, oracle.BuildKeyName "idx" "orders" ["customer_identifier_reference_code"]
        = some name ∧
      utf8.RuneCountInString name = 29 ∧
      name.data = (oracle.shortName "customer_identifier_reference_code"
        (commonDialect.BuildKeyName "idx" "orders"
          ["customer_identifier_reference_code"])).data.take 29 ∧
      ∃ tail, name = "customer_" ++ tail := by
  refine ⟨by decide, _, BuildKeyName_long "idx" "orders" "customer_identifier_reference_code" []
    (by decide), by decide, rfl, "identifier_reference", by decide⟩

/-! ## Facts about the type resolver -/

theorem normalizeType_empty (table : Char → Char) : normalizeType table "" = "" := by
  rfl

theorem replaceFirstChars_ne_nil (old new s : List Char) (hnew : new ≠ []) (hs : s ≠ []) :
    strings.replaceFirstChars old new s ≠ [] := by
  cases s with
  | nil => exact absurd rfl hs
  | cons c cs =>
    rw [strings.replaceFirstChars]
    split
    · intro h
      exact hnew (List.append_eq_nil.mp h).1
    · exact List.cons_ne_nil _ _

theorem ReplaceFirst_ne_empty (s old new : String) (hnew : new ≠ "") (hs : s ≠ "") :
    strings.ReplaceFirst s old new ≠ "" := by
  intro h
  have hd : strings.replaceFirstChars old.data new.data s.data = [] := congrArg String.data h
  refine replaceFirstChars_ne_nil old.data new.data s.data ?_ ?_ hd
  · intro h'; exact hnew (String.ext h')
  · intro h'; exact hs (String.ext h')

theorem normalizeType_eq_empty_iff (table : Char → Char) (s : String) :
    normalizeType table s = "" ↔ s = "" := by
  constructor
  · intro h
    by_contra hs
    unfold normalizeType at h
    simp only at h
    split at h
    · exact absurd h (by decide)
    · split at h
      · exact absurd h (by decide)
      · split at h
        · exact absurd h (by decide)
        · split at h
          · exact absurd h (by decide)
          · split at h
            · exact ReplaceFirst_ne_empty s _ _ (by decide) hs h
            · split at h
              · exact ReplaceFirst_ne_empty s _ _ (by decide) hs h
              · exact hs h
  · rintro rfl
    exact normalizeType_empty table

theorem fixedType_of_hook (table : Char → Char) (field : StructField) (hook : String)
    (h : (indirectType field.structType).methods.gormDataType = some hook) :
    fixedType table field = hook := by
  simp only [fixedType, h]

theorem fixedType_of_no_hook (table : Char → Char) (field : StructField)
    (h : (indirectType field.structType).methods.gormDataType = none) :
    fixedType table field = normalizeType table (field.TagSettingsGet "TYPE").1 := by
  simp only [fixedType, h]

theorem baseType_of_fixed (table : Char → Char) (field : StructField)
    (h : fixedType table field ≠ "") :
    oracle.baseType table field = some (fixedType table field) := by
  simp [oracle.baseType, ParseFieldStructForDialectOracle, oracle.sqlTypeOf, h]

theorem baseType_of_empty (table : Char → Char) (field : StructField)
    (h : fixedType table field = "") :
    oracle.baseType table field =
      (getScannerValue (indirectType field.structType) false false).bind
        (fun value => oracle.sqlTypeOf value "" (fieldSize field)) := by
  simp only [oracle.baseType, ParseFieldStructForDialectOracle, h, if_true, reflect.zero]
  cases getScannerValue (indirectType field.structType) false false <;> rfl

theorem DataTypeOf_eq_map (table : Char → Char) (field : StructField) :
    oracle.DataTypeOf table field =
      (oracle.baseType table field).map
        (fun base => oracle.withAdditionalType base (additionalTypeOf field)) := by
  unfold oracle.DataTypeOf oracle.baseType ParseFieldStructForDialectOracle
  by_cases h : fixedType table field = ""
  · simp only [h, if_true]
    cases getScannerValue (reflect.zero (indirectType field.structType)).typ
        (reflect.zero (indirectType field.structType)).stickyRO
        (reflect.zero (indirectType field.structType)).embedRO with
    | none => rfl
    | some value =>
      simp only
      cases oracle.sqlTypeOf value "" (fieldSize field) <;> rfl
  · simp only [h, if_false]
    cases oracle.sqlTypeOf (reflect.zero (indirectType field.structType))
      (fixedType table field) (fieldSize field) <;> rfl

theorem DataTypeOf_of_baseType (table : Char → Char) (field : StructField) (base : String)
    (h : oracle.baseType table field = some base) :
    oracle.DataTypeOf table field =
      some (oracle.withAdditionalType base (additionalTypeOf field)) := by
  rw [DataTypeOf_eq_map, h]
  rfl

theorem varchar_ne_empty (s : String) : "VARCHAR2(" ++ s ++ ")" ≠ "" := by
  intro h
  have hl := congrArg String.length h
  simp only [String.length_append] at hl
  have h9 : "VARCHAR2(".length = 9 := by decide
  have h0 : "".length = 0 := by decide
  omega

theorem sqlTypeOf_string (name : String) (m : Methods) (sticky embed : Bool) (size : Int) :
    oracle.sqlTypeOf ⟨GoType.basic BasicKind.String name m, sticky, embed⟩ "" size =
      some (if 0 < size ∧ size < 4000 then "VARCHAR2(" ++ fmt.formatInt size ++ ")"
        else "VARCHAR2(255)") := by
  by_cases h : 0 < size ∧ size < 4000
  · simp [oracle.sqlTypeOf, oracle.kindType, GoType.Kind, BasicKind.toKind, h, varchar_ne_empty]
  · simp only [oracle.sqlTypeOf, oracle.kindType, GoType.Kind, BasicKind.toKind, h, if_true,
      if_false]
    rfl

set_option maxRecDepth 100000 in
/-- C6, counterexample: a field tagged `TYPE:bigint` whose value type has the custom type
hook returning `CLOB` has the base type `CLOB`, not `NUMBER(19)`. -/
theorem DataTypeOf_bigint_hooked :
    strings.ToLower unicode.latin1Table (sample.jsonField.TagSettingsGet "TYPE").1 = "bigint" ∧
    oracle.baseType unicode.latin1Table sample.jsonField = some "CLOB" ∧
    oracle.baseType unicode.latin1Table sample.jsonField ≠ some "NUMBER(19)" ∧
    oracle.DataTypeOf unicode.latin1Table sample.jsonField = some "CLOB" := by
  decide

/-- C6, amended: for every field whose value type has no custom type hook and whose
`TYPE` setting lowers to `bigint`, the base type of `oracle.DataTypeOf` is `NUMBER(19)`,
whatever the type of the field is; the returned string is `NUMBER(19)` with the
modifiers appended. -/
theorem DataTypeOf_bigint (table : Char → Char) (field : StructField)
    (hT : strings.ToLower table (field.TagSettingsGet "TYPE").1 = "bigint")
    (hH : (indirectType field.structType).methods.gormDataType = none) :
    oracle.baseType table field = some "NUMBER(19)" ∧
    oracle.DataTypeOf table field =
      some (oracle.withAdditionalType "NUMBER(19)" (additionalTypeOf field)) := by
  have hfix : fixedType table field = "NUMBER(19)" := by
    rw [fixedType_of_no_hook table field hH]
    simp only [normalizeType, hT, if_true]
  have hbase : oracle.baseType table field = some "NUMBER(19)" := by
    rw [baseType_of_fixed table field (by rw [hfix]; decide), hfix]
  exact ⟨hbase, DataTypeOf_of_baseType table field _ hbase⟩

set_option maxRecDepth 100000 in
/-- Witness of C6, amended: the boolean field tagged `TYPE:BigInt` resolves to
`NUMBER(19)`. -/
theorem DataTypeOf_bigint_witness :
    strings.ToLower unicode.latin1Table (sample.flagField.TagSettingsGet "TYPE").1 = "bigint" ∧
    (indirectType sample.flagField.structType).methods.gormDataType = none ∧
    oracle.baseType unicode.latin1Table sample.flagField = some "NUMBER(19)" ∧
    oracle.DataTypeOf unicode.latin1Table sample.flagField = some "NUMBER(19)" :=
  ⟨by decide, by decide,
    (DataTypeOf_bigint unicode.latin1Table sample.flagField (by decide) (by decide)).1,
    (DataTypeOf_bigint unicode.latin1Table sample.flagField (by decide) (by decide)).2.trans
      (by decide)⟩

/-- C9: for every field whose value type has the custom type hook returning a non-empty
string, the base type of `oracle.DataTypeOf` is that string, whatever the `TYPE` setting
and the type of the field are; the returned string is the hook result with the modifiers
appended. -/
theorem DataTypeOf_hook (table : Char → Char) (field : StructField) (hook : String)
    (hH : (indirectType field.structType).methods.gormDataType = some hook)
    (hne : hook ≠ "") :
    fixedType table field = hook ∧
    oracle.baseType table field = some hook ∧
    oracle.DataTypeOf table field =
      some (oracle.withAdditionalType hook (additionalTypeOf field)) := by
  have hfix : fixedType table field = hook := fixedType_of_hook table field hook hH
  have hbase : oracle.baseType table field = some hook := by
    rw [baseType_of_fixed table field (by rw [hfix]; exact hne), hfix]
  exact ⟨hfix, hbase, DataTypeOf_of_baseType table field _ hbase⟩

set_option maxRecDepth 100000 in
/-- Witness of C9: the field of type `JSON` tagged `TYPE:bigint` resolves to `CLOB`. -/
theorem DataTypeOf_hook_witness :
    (indirectType sample.jsonField.structType).methods.gormDataType = some "CLOB" ∧
    "CLOB" ≠ "" ∧
    normalizeType unicode.latin1Table (sample.jsonField.TagSettingsGet "TYPE").1 = "NUMBER(19)" ∧
    oracle.baseType unicode.latin1Table sample.jsonField = some "CLOB" :=
  ⟨by decide, by decide, by decide,
    (DataTypeOf_hook unicode.latin1Table sample.jsonField "CLOB" (by decide) (by decide)).2.1⟩

theorem sqlTypeOf_empty_eq_none_iff (value : reflect.Value) (size : Int) :
    oracle.sqlTypeOf value "" size = none ↔
      oracle.listedKind value = false ∨
        (value.typ.Kind = reflect.Kind.Struct ∧ value.readOnly = true) := by
  obtain ⟨typ, sticky, embed⟩ := value
  cases typ with
  | basic k name m =>
    cases k
    case String =>
      rw [sqlTypeOf_string]
      simp [oracle.listedKind, GoType.Kind, BasicKind.toKind]
    all_goals
      simp [oracle.sqlTypeOf, oracle.kindType, oracle.listedKind, GoType.Kind,
        BasicKind.toKind, IsByteArrayOrSlice]
  | ptr elem =>
    simp [oracle.sqlTypeOf, oracle.kindType, oracle.listedKind, GoType.Kind,
      IsByteArrayOrSlice]
  | array name m len elem =>
    by_cases h : elem = GoType.uint8 <;>
      simp [oracle.sqlTypeOf, oracle.kindType, oracle.listedKind, GoType.Kind,
        IsByteArrayOrSlice, h]
  | slice name m elem =>
    by_cases h : elem = GoType.uint8 <;>
      simp [oracle.sqlTypeOf, oracle.kindType, oracle.listedKind, GoType.Kind,
        IsByteArrayOrSlice, h]
  | structEmpty name m =>
    by_cases hro : (sticky || embed) = true <;>
      simp [oracle.sqlTypeOf, oracle.kindType, oracle.listedKind, GoType.Kind, hro,
        GoType.timeTime, reflect.Value.readOnly]
  | struct name m access first =>
    by_cases hro : (sticky || embed) = true
    · simp [oracle.sqlTypeOf, oracle.kindType, oracle.listedKind, GoType.Kind, hro,
        reflect.Value.readOnly]
    · by_cases ht : GoType.struct name m access first = GoType.timeTime <;>
        simp [oracle.sqlTypeOf, oracle.kindType, oracle.listedKind, GoType.Kind, hro, ht,
          reflect.Value.readOnly]

theorem DataTypeOf_eq_none_iff (table : Char → Char) (field : StructField) :
    oracle.DataTypeOf table field = none ↔ oracle.baseType table field = none := by
  rw [DataTypeOf_eq_map, Option.map_eq_none']

theorem baseType_eq_none_iff (table : Char → Char) (field : StructField) :
    oracle.baseType table field = none ↔
      fixedType table field = "" ∧
        ∀ value, getScannerValue (indirectType field.structType) false false = some value →
          (oracle.listedKind value = false ∨
            (value.typ.Kind = reflect.Kind.Struct ∧ value.readOnly = true)) := by
  by_cases hfix : fixedType table field = ""
  · rw [baseType_of_empty table field hfix]
    cases hg : getScannerValue (indirectType field.structType) false false with
    | none => simp [hfix]
    | some value =>
      simp only [Option.some_bind, sqlTypeOf_empty_eq_none_iff, hfix, true_and,
        Option.some.injEq, forall_eq']
  · rw [baseType_of_fixed table field hfix]
    simp [hfix]

theorem fixedType_eq_empty_iff (table : Char → Char) (field : StructField) :
    fixedType table field = "" ↔
      (indirectType field.structType).methods.gormDataType = some "" ∨
        ((indirectType field.structType).methods.gormDataType = none ∧
          (field.TagSettingsGet "TYPE").1 = "") := by
  cases h : (indirectType field.structType).methods.gormDataType with
  | none => simp [fixedType_of_no_hook table field h, normalizeType_eq_empty_iff]
  | some hook => simp [fixedType_of_hook table field hook h]

theorem forall_of_eq_some {α : Type} (o : Option α) (v : α) (P : α → Prop) (h : o = some v)
    (hp : P v) : ∀ value, o = some value → P value := by
  intro value hv
  rw [h] at hv
  cases hv
  exact hp

set_option maxRecDepth 100000 in
/-- C10, counterexample: a field tagged `TYPE:bigint` whose value type is a struct with a
hook that returns the empty string makes `oracle.DataTypeOf` panic although a non-empty
explicit type is present. -/
theorem DataTypeOf_panics_empty_hook :
    (sample.moneyField.TagSettingsGet "TYPE").1 = "bigint" ∧
    normalizeType unicode.latin1Table (sample.moneyField.TagSettingsGet "TYPE").1
      = "NUMBER(19)" ∧
    (indirectType sample.moneyField.structType).methods.gormDataType = some "" ∧
    oracle.DataTypeOf unicode.latin1Table sample.moneyField = none := by
  decide

/-- C10, amended: for every field whose scanner-unwrapped value, when it is a struct,
carries neither read-only flag of `reflect`, `oracle.DataTypeOf` panics if and only if the
type string left after the custom type hook is empty and the scanner unwrapping yields no
listed value: it hits a scanner struct without fields, or ends on a value that is none of
boolean, integer kind, float kind, string, `time.Time` struct, byte array or slice. The
type string left after the hook is empty exactly when the hook exists and returns the
empty string, which discards the `TYPE` setting, or there is no hook and the `TYPE`
setting is empty or absent. For every field: an empty type string with no listed value
makes it panic; it panics only when the type string is empty, so not when the hook
result is non-empty, nor without hook when the `TYPE` setting is non-empty; and it does
not panic when the unwrapped value is listed and is not a struct, or carries no read-only
flag. -/
theorem DataTypeOf_panics_iff (table : Char → Char) (field : StructField) :
    ((∀ value, getScannerValue (indirectType field.structType) false false = some value →
        value.typ.Kind = reflect.Kind.Struct → value.readOnly = false) →
      (oracle.DataTypeOf table field = none ↔
        fixedType table field = "" ∧
          ∀ value, getScannerValue (indirectType field.structType) false false = some value →
            oracle.listedKind value = false)) ∧
    (fixedType table field = "" →
      (∀ value, getScannerValue (indirectType field.structType) false false = some value →
        oracle.listedKind value = false) →
      oracle.DataTypeOf table field = none) ∧
    (oracle.DataTypeOf table field = none → fixedType table field = "") ∧
    (fixedType table field = "" ↔
      (indirectType field.structType).methods.gormDataType = some "" ∨
        ((indirectType field.structType).methods.gormDataType = none ∧
          (field.TagSettingsGet "TYPE").1 = "")) ∧
    (∀ hook, (indirectType field.structType).methods.gormDataType = some hook → hook ≠ "" →
      oracle.DataTypeOf table field ≠ none) ∧
    ((indirectType field.structType).methods.gormDataType = none →
      (field.TagSettingsGet "TYPE").1 ≠ "" → oracle.DataTypeOf table field ≠ none) ∧
    (∀ value, getScannerValue (indirectType field.structType) false false = some value →
      oracle.listedKind value = true →
      (value.typ.Kind ≠ reflect.Kind.Struct ∨ value.readOnly = false) →
      oracle.DataTypeOf table field ≠ none) := by
  have hiff := (DataTypeOf_eq_none_iff table field).trans (baseType_eq_none_iff table field)
  have hfix := fixedType_eq_empty_iff table field
  refine ⟨fun hro => ⟨fun hnone => ⟨(hiff.mp hnone).1, fun value hv => ?_⟩,
      fun h => hiff.mpr ⟨h.1, fun value hv => Or.inl (h.2 value hv)⟩⟩,
    fun hf hall => hiff.mpr ⟨hf, fun value hv => Or.inl (hall value hv)⟩,
    fun hnone => (hiff.mp hnone).1, hfix, ?_, ?_, ?_⟩
  · rcases (hiff.mp hnone).2 value hv with h | h
    · exact h
    · rw [hro value hv h.1] at h
      exact absurd h.2 (by simp)
  · intro hook hH hne hnone
    rcases hfix.mp (hiff.mp hnone).1 with h | h
    · rw [hH] at h
      exact hne (Option.some.inj h)
    · rw [hH] at h
      exact absurd h.1 (by simp)
  · intro hH hT hnone
    rcases hfix.mp (hiff.mp hnone).1 with h | h
    · rw [hH] at h
      exact absurd h (by simp)
    · exact hT h.2
  · intro value hv hlisted hro hnone
    rcases (hiff.mp hnone).2 value hv with h | h
    · rw [hlisted] at h
      exact absurd h (by simp)
    · rcases hro with hk | hr
      · exact hk h.1
      · rw [hr] at h
        exact absurd h.2 (by simp)

set_option maxRecDepth 100000 in
/-- Witness of C10: a field of struct type `Point`, without hook and without tag, has an
unwrapped value without read-only flag and makes `oracle.DataTypeOf` panic; a field of
type `sql.NullTime`, whose exported first field is a `time.Time`, does not. -/
theorem DataTypeOf_panics_iff_witness :
    (∀ value, getScannerValue (indirectType sample.pointField.structType) false false
        = some value →
      value.typ.Kind = reflect.Kind.Struct → value.readOnly = false) ∧
    oracle.DataTypeOf unicode.latin1Table sample.pointField = none ∧
    oracle.DataTypeOf unicode.latin1Table sample.sqlNullTimeField ≠ none :=
  ⟨forall_of_eq_some _ ⟨sample.pointType, false, false⟩ _ (by decide) (by decide),
    ((DataTypeOf_panics_iff unicode.latin1Table sample.pointField).1
      (forall_of_eq_some _ ⟨sample.pointType, false, false⟩ _ (by decide) (by decide))).mpr
      ⟨by decide,
        forall_of_eq_some _ ⟨sample.pointType, false, false⟩ _ (by decide) (by decide)⟩,
    (DataTypeOf_panics_iff unicode.latin1Table sample.sqlNullTimeField).2.2.2.2.2.2
      ⟨GoType.timeTime, false, false⟩ (by decide) (by decide) (Or.inr (by decide))⟩

/-! ## Facts about `TrimSpace` -/

theorem trimLeft_cons (c : Char) (s : List Char) :
    strings.trimLeft (c :: s) = if unicode.IsSpace c then strings.trimLeft s else c :: s := by
  simp only [strings.trimLeft, List.dropWhile_cons]

theorem trimLeft_append (x y : List Char) :
    strings.trimLeft (x ++ y) =
      if strings.trimLeft x = [] then strings.trimLeft y else strings.trimLeft x ++ y := by
  induction x with
  | nil => simp [strings.trimLeft]
  | cons c cs ih =>
    rw [List.cons_append, trimLeft_cons, trimLeft_cons]
    by_cases hc : unicode.IsSpace c = true
    · simp only [hc, if_true, ih]
    · simp [hc]

theorem trimRight_eq (s : List Char) :
    strings.trimRight s = (strings.trimLeft s.reverse).reverse := rfl

theorem trimRight_append (x y : List Char) :
    strings.trimRight (x ++ y) =
      if strings.trimRight y = [] then strings.trimRight x else x ++ strings.trimRight y := by
  simp only [trimRight_eq, List.reverse_append, trimLeft_append, List.reverse_eq_nil_iff]
  split <;> simp

theorem trimRight_singleton (c : Char) :
    strings.trimRight [c] = if unicode.IsSpace c then [] else [c] := by
  simp only [strings.trimRight, List.reverse_singleton, List.dropWhile_cons,
    List.dropWhile_nil]
  split <;> rfl

theorem trimRight_cons (c : Char) (s : List Char) :
    strings.trimRight (c :: s) =
      if strings.trimRight s = [] then strings.trimRight [c] else c :: strings.trimRight s := by
  have h := trimRight_append [c] s
  simpa using h

theorem trimRight_cons_eq (c : Char) (s : List Char) :
    strings.trimRight (c :: s) =
      if strings.trimRight s = [] then (if unicode.IsSpace c then [] else [c])
      else c :: strings.trimRight s := by
  rw [trimRight_cons, trimRight_singleton]

theorem trimRight_cons_fixed (c : Char) (s : List Char) (h : strings.trimRight s = s)
    (hs : s ≠ []) : strings.trimRight (c :: s) = c :: s := by
  rw [trimRight_cons, h, if_neg hs]

theorem trimLeft_length_le (s : List Char) : (strings.trimLeft s).length ≤ s.length := by
  induction s with
  | nil => simp [strings.trimLeft]
  | cons c cs ih =>
    rw [trimLeft_cons]
    split
    · simp only [List.length_cons]; omega
    · exact Nat.le_refl _

theorem trimRight_length_le (s : List Char) : (strings.trimRight s).length ≤ s.length := by
  rw [trimRight_eq, List.length_reverse]
  exact (trimLeft_length_le _).trans (by simp)

theorem trimLeft_eq_self_of_length (s : List Char)
    (h : s.length ≤ (strings.trimLeft s).length) : strings.trimLeft s = s := by
  cases s with
  | nil => rfl
  | cons c cs =>
    rw [trimLeft_cons] at h ⊢
    split at h
    · have := trimLeft_length_le cs
      simp only [List.length_cons] at h
      omega
    · rename_i hc
      simp [hc]

theorem trimRight_eq_self_of_length (s : List Char)
    (h : s.length ≤ (strings.trimRight s).length) : strings.trimRight s = s := by
  rw [trimRight_eq] at h ⊢
  rw [trimLeft_eq_self_of_length s.reverse (by simpa using h), List.reverse_reverse]

/-- A string that `TrimSpace` leaves unchanged has no white space at either end. -/
theorem TrimSpace_fixed (s : String) (h : strings.TrimSpace s = s) :
    strings.trimLeft s.data = s.data ∧ strings.trimRight s.data = s.data := by
  have h' : strings.trimRight (strings.trimLeft s.data) = s.data := congrArg String.data h
  have h1 : strings.trimLeft s.data = s.data := by
    apply trimLeft_eq_self_of_length
    have := trimRight_length_le (strings.trimLeft s.data)
    rw [h'] at this
    exact this
  rw [h1] at h'
  exact ⟨h1, h'⟩

theorem trimLeft_idem (s : List Char) :
    strings.trimLeft (strings.trimLeft s) = strings.trimLeft s := by
  induction s with
  | nil => rfl
  | cons c cs ih =>
    rw [trimLeft_cons]
    split
    · exact ih
    · rename_i hc
      rw [trimLeft_cons, if_neg hc]

theorem trimRight_idem (s : List Char) :
    strings.trimRight (strings.trimRight s) = strings.trimRight s := by
  simp only [trimRight_eq, List.reverse_reverse, trimLeft_idem]

theorem trimLeft_trimRight (s : List Char) (h : strings.trimLeft s = s) :
    strings.trimLeft (strings.trimRight s) = strings.trimRight s := by
  cases s with
  | nil => rfl
  | cons c cs =>
    have hc : ¬ unicode.IsSpace c = true := by
      intro hc
      rw [trimLeft_cons, if_pos hc] at h
      have := trimLeft_length_le cs
      rw [h] at this
      simp only [List.length_cons] at this
      omega
    rw [trimRight_cons, trimRight_singleton, if_neg hc]
    split <;> rw [trimLeft_cons, if_neg hc]

theorem TrimSpace_idem (s : String) :
    strings.TrimSpace (strings.TrimSpace s) = strings.TrimSpace s := by
  simp only [strings.TrimSpace]
  rw [trimLeft_trimRight _ (trimLeft_idem s.data), trimRight_idem]

theorem withAdditionalType_trimmed (base raw : String) :
    oracle.withAdditionalType base (strings.TrimSpace raw) =
      if strings.TrimSpace raw = "" then base else base ++ " " ++ strings.TrimSpace raw := by
  simp only [oracle.withAdditionalType, TrimSpace_idem]

theorem trim_raw (p1 n u p4 : List Char) (D C : Bool)
    (h1 : strings.trimLeft p1 = p1 ∧ strings.trimRight p1 = p1)
    (hn : strings.trimLeft n = n ∧ strings.trimRight n = n)
    (hu : strings.trimLeft u = u ∧ strings.trimRight u = u)
    (h4 : strings.trimLeft p4 = p4 ∧ strings.trimRight p4 = p4)
    (hD : D = true ↔ p1 ≠ []) (hC : C = true ↔ p4 ≠ []) :
    strings.trimRight (strings.trimLeft
        ((if D then ' ' :: (p1 ++ [' ']) else []) ++ (n ++ ' ' :: u) ++
          (if C then ' ' :: p4 else []))) =
      p1 ++ (if D && (!n.isEmpty || !u.isEmpty || C) then [' '] else []) ++ n ++
        (if (D || !n.isEmpty) && (!u.isEmpty || C) then [' '] else []) ++ u ++
        (if C && (D || !n.isEmpty || !u.isEmpty) then [' '] else []) ++ p4 := by
  have hsp : unicode.IsSpace ' ' = true := by decide
  have hnil : strings.trimLeft [] = [] := rfl
  have hnil' : strings.trimRight [] = [] := rfl
  obtain ⟨h1l, h1r⟩ := h1
  obtain ⟨hnl, hnr⟩ := hn
  obtain ⟨hul, hur⟩ := hu
  obtain ⟨h4l, h4r⟩ := h4
  cases D <;> cases C <;>
    simp only [Bool.false_eq_true, false_iff, true_iff, ne_eq, not_not] at hD hC <;>
    by_cases hne : n = [] <;> by_cases hue : u = [] <;>
    simp [trimLeft_append, trimRight_append, trimLeft_cons, trimRight_cons_eq, *]

/-! ## Facts about the modifiers -/

theorem trim_clauses (p1 n u p4 : List Char) (D N U C : Bool)
    (h1 : strings.trimLeft p1 = p1 ∧ strings.trimRight p1 = p1)
    (hn : strings.trimLeft n = n ∧ strings.trimRight n = n)
    (hu : strings.trimLeft u = u ∧ strings.trimRight u = u)
    (h4 : strings.trimLeft p4 = p4 ∧ strings.trimRight p4 = p4)
    (hD : D = true ↔ p1 ≠ []) (hN : N = true ↔ n ≠ []) (hU : U = true ↔ u ≠ [])
    (hC : C = true ↔ p4 ≠ []) :
    strings.trimRight (strings.trimLeft
        ((if D then ' ' :: (p1 ++ [' ']) else []) ++ (n ++ ' ' :: u) ++
          (if C then ' ' :: p4 else []))) =
      p1 ++ (if D && (N || U || C) then [' '] else []) ++ n ++
        (if (D || N) && (U || C) then [' '] else []) ++ u ++
        (if C && (D || N || U) then [' '] else []) ++ p4 := by
  have hN' : N = !n.isEmpty := by
    cases n with
    | nil => simpa using hN
    | cons a as => simpa using hN
  have hU' : U = !u.isEmpty := by
    cases u with
    | nil => simpa using hU
    | cons a as => simpa using hU
  rw [hN', hU']
  exact trim_raw p1 n u p4 D C h1 hn hu h4 hD hC

theorem isSet_iff (s : String) : spec.isSet s = true ↔ s.data ≠ [] := by
  simp [spec.isSet, String.ext_iff]

theorem gap_data (b : Bool) : (spec.gap b).data = if b then [' '] else [] := by
  cases b <;> rfl

theorem trimmed_fixed (s : String) (h : spec.trimmed s = true) :
    strings.trimLeft s.data = s.data ∧ strings.trimRight s.data = s.data :=
  TrimSpace_fixed s (by simpa [spec.trimmed] using h)

theorem rawAdditionalType_data (field : StructField) :
    (rawAdditionalType field).data =
      (if (field.TagSettingsGet "DEFAULT").2 then
          ' ' :: ((spec.defaultClause field).data ++ [' ']) else []) ++
        ((spec.notNullClause field).data ++ ' ' :: (spec.uniqueClause field).data) ++
        (if (field.TagSettingsGet "COMMENT").2 then
          ' ' :: (spec.commentClause field).data else []) := by
  have e1 : " DEFAULT ".data = ' ' :: "DEFAULT ".data := rfl
  have e2 : " ".data = [' '] := rfl
  have e3 : " COMMENT ".data = ' ' :: "COMMENT ".data := rfl
  unfold rawAdditionalType spec.defaultClause spec.commentClause spec.notNullClause
    spec.uniqueClause
  rcases hd : field.TagSettingsGet "DEFAULT" with ⟨d, bd⟩
  rcases hc : field.TagSettingsGet "COMMENT" with ⟨c, bc⟩
  cases bd <;> cases bc <;> simp [String.data_append, e1, e2, e3]

theorem keyword_clause_fixed (keyword value : String)
    (hk : strings.trimLeft keyword.data = keyword.data) (hkne : keyword.data ≠ [])
    (hv : spec.isSet value = true) (ht : spec.trimmed value = true) :
    strings.trimLeft (keyword ++ value).data = (keyword ++ value).data ∧
      strings.trimRight (keyword ++ value).data = (keyword ++ value).data := by
  have hvne : value.data ≠ [] := (isSet_iff value).mp hv
  obtain ⟨_, hr⟩ := trimmed_fixed value ht
  constructor
  · rw [String.data_append, trimLeft_append, hk, if_neg hkne]
  · rw [String.data_append, trimRight_append, hr, if_neg hvne]

theorem defaultClause_fixed (field : StructField) (h : spec.cleanSettings field = true) :
    (strings.trimLeft (spec.defaultClause field).data = (spec.defaultClause field).data ∧
      strings.trimRight (spec.defaultClause field).data = (spec.defaultClause field).data) ∧
    ((field.TagSettingsGet "DEFAULT").2 = true ↔ (spec.defaultClause field).data ≠ []) := by
  unfold spec.cleanSettings at h
  unfold spec.defaultClause
  rcases hd : field.TagSettingsGet "DEFAULT" with ⟨d, bd⟩
  rw [hd] at h
  cases bd
  · exact ⟨⟨rfl, rfl⟩, by simp⟩
  · simp only [Bool.and_eq_true] at h
    refine ⟨keyword_clause_fixed "DEFAULT " d rfl (by decide) h.1.2.1 h.1.2.2, ?_⟩
    simp [String.data_append]

theorem commentClause_fixed (field : StructField) (h : spec.cleanSettings field = true) :
    (strings.trimLeft (spec.commentClause field).data = (spec.commentClause field).data ∧
      strings.trimRight (spec.commentClause field).data = (spec.commentClause field).data) ∧
    ((field.TagSettingsGet "COMMENT").2 = true ↔ (spec.commentClause field).data ≠ []) := by
  unfold spec.cleanSettings at h
  unfold spec.commentClause
  rcases hd : field.TagSettingsGet "COMMENT" with ⟨d, bd⟩
  rw [hd] at h
  cases bd
  · exact ⟨⟨rfl, rfl⟩, by simp⟩
  · simp only [Bool.and_eq_true] at h
    refine ⟨keyword_clause_fixed "COMMENT " d rfl (by decide) h.2.1 h.2.2, ?_⟩
    simp [String.data_append]

theorem additionalTypeOf_clean (field : StructField) (h : spec.cleanSettings field = true) :
    additionalTypeOf field =
      spec.defaultClause field ++
        spec.gap (spec.isSet (spec.defaultClause field) &&
          (spec.isSet (spec.notNullClause field) || spec.isSet (spec.uniqueClause field) ||
            spec.isSet (spec.commentClause field))) ++
        spec.notNullClause field ++
        spec.gap ((spec.isSet (spec.defaultClause field) ||
            spec.isSet (spec.notNullClause field)) &&
          (spec.isSet (spec.uniqueClause field) || spec.isSet (spec.commentClause field))) ++
        spec.uniqueClause field ++
        spec.gap (spec.isSet (spec.commentClause field) &&
          (spec.isSet (spec.defaultClause field) || spec.isSet (spec.notNullClause field) ||
            spec.isSet (spec.uniqueClause field))) ++
        spec.commentClause field := by
  obtain ⟨h1, hD⟩ := defaultClause_fixed field h
  obtain ⟨h4, hC⟩ := commentClause_fixed field h
  have hclean := h
  unfold spec.cleanSettings at hclean
  simp only [Bool.and_eq_true] at hclean
  have hn := trimmed_fixed _ hclean.1.1.1
  have hu := trimmed_fixed _ hclean.1.1.2
  have hD' : (field.TagSettingsGet "DEFAULT").2 = spec.isSet (spec.defaultClause field) := by
    rw [Bool.eq_iff_iff, hD, isSet_iff]
  have hC' : (field.TagSettingsGet "COMMENT").2 = spec.isSet (spec.commentClause field) := by
    rw [Bool.eq_iff_iff, hC, isSet_iff]
  apply String.ext
  simp only [String.data_append, gap_data, additionalTypeOf, strings.TrimSpace]
  rw [rawAdditionalType_data, hD', hC']
  exact trim_clauses _ _ _ _ _ _ _ _ h1 hn hu h4 (isSet_iff _) (isSet_iff _) (isSet_iff _)
    (isSet_iff _)

/-- With clean settings the returned string is the base type and the clauses in the
fixed order, separated by the spaces that the concatenation of the parse leaves. -/
theorem DataTypeOf_clean (table : Char → Char) (field : StructField) (base : String)
    (hbase : oracle.baseType table field = some base)
    (h : spec.cleanSettings field = true) :
    oracle.DataTypeOf table field =
      some (base ++
        spec.gap (spec.isSet (spec.defaultClause field) ||
          spec.isSet (spec.notNullClause field) || spec.isSet (spec.uniqueClause field) ||
          spec.isSet (spec.commentClause field)) ++
        (spec.defaultClause field ++
        spec.gap (spec.isSet (spec.defaultClause field) &&
          (spec.isSet (spec.notNullClause field) || spec.isSet (spec.uniqueClause field) ||
            spec.isSet (spec.commentClause field))) ++
        spec.notNullClause field ++
        spec.gap ((spec.isSet (spec.defaultClause field) ||
            spec.isSet (spec.notNullClause field)) &&
          (spec.isSet (spec.uniqueClause field) || spec.isSet (spec.commentClause field))) ++
        spec.uniqueClause field ++
        spec.gap (spec.isSet (spec.commentClause field) &&
          (spec.isSet (spec.defaultClause field) || spec.isSet (spec.notNullClause field) ||
            spec.isSet (spec.uniqueClause field))) ++
        spec.commentClause field)) := by
  have hT := additionalTypeOf_clean field h
  rw [DataTypeOf_of_baseType table field base hbase]
  have hw : oracle.withAdditionalType base (additionalTypeOf field) =
      if additionalTypeOf field = "" then base else base ++ " " ++ additionalTypeOf field :=
    withAdditionalType_trimmed base (rawAdditionalType field)
  rw [hw, hT]
  generalize spec.defaultClause field = p1
  generalize spec.notNullClause field = n
  generalize spec.uniqueClause field = u
  generalize spec.commentClause field = p4
  by_cases h1 : p1 = "" <;> by_cases hn : n = "" <;> by_cases hu : u = "" <;>
    by_cases h4 : p4 = "" <;>
    simp [spec.gap, spec.isSet, h1, hn, hu, h4, String.ext_iff, String.data_append]

theorem trim_all (d m c : List Char) :
    strings.trimRight (strings.trimLeft
        (' ' :: (("DEFAULT ".data ++ d) ++ [' ']) ++ m ++ ' ' :: ("COMMENT ".data ++ c))) =
      "DEFAULT ".data ++ d ++ ' ' :: m ++ " COMMENT".data ++ strings.trimRight (' ' :: c) := by
  have hsp : unicode.IsSpace ' ' = true := by decide
  have hD : unicode.IsSpace 'D' = false := by decide
  have e1 : "DEFAULT ".data = 'D' :: "EFAULT ".data := rfl
  have e2 : "COMMENT ".data = "COMMENT".data ++ [' '] := rfl
  have e3 : " COMMENT".data = ' ' :: "COMMENT".data := rfl
  have hk : strings.trimRight "COMMENT".data = "COMMENT".data := by decide
  have hkne : "COMMENT".data ≠ [] := by decide
  have hleft : strings.trimLeft
      (' ' :: (("DEFAULT ".data ++ d) ++ [' ']) ++ m ++ ' ' :: ("COMMENT ".data ++ c)) =
      ("DEFAULT ".data ++ d ++ ' ' :: m ++ " COMMENT".data) ++ ' ' :: c := by
    rw [List.cons_append, List.cons_append, trimLeft_cons, if_pos hsp, e1]
    simp only [List.cons_append, trimLeft_cons, hD, e2, e3, List.append_assoc]
    simp
  have hX : strings.trimRight ("DEFAULT ".data ++ d ++ ' ' :: m ++ " COMMENT".data) =
      "DEFAULT ".data ++ d ++ ' ' :: m ++ " COMMENT".data := by
    rw [e3, show "DEFAULT ".data ++ d ++ ' ' :: m ++ ' ' :: "COMMENT".data =
      ("DEFAULT ".data ++ d ++ ' ' :: m ++ [' ']) ++ "COMMENT".data by simp,
      trimRight_append, hk, if_neg hkne]
  rw [hleft, trimRight_append]
  split
  · rename_i h
    rw [h, hX, List.append_nil]
  · rfl

theorem additionalTypeOf_all (field : StructField) (d c : String)
    (hd : field.TagSettingsGet "DEFAULT" = (d, true))
    (hc : field.TagSettingsGet "COMMENT" = (c, true)) :
    additionalTypeOf field =
      "DEFAULT " ++ d ++ " " ++ spec.notNullClause field ++ " " ++ spec.uniqueClause field ++
        " COMMENT" ++ strings.TrimRightSpace (" " ++ c) := by
  have e1 : " ".data = [' '] := rfl
  apply String.ext
  simp only [additionalTypeOf, strings.TrimSpace, strings.TrimRightSpace, String.data_append,
    e1]
  rw [rawAdditionalType_data]
  simp only [hd, hc, if_true, spec.defaultClause, spec.commentClause, String.data_append]
  rw [trim_all]
  simp

theorem additionalTypeOf_all_ne (field : StructField) (d c : String)
    (hd : field.TagSettingsGet "DEFAULT" = (d, true))
    (hc : field.TagSettingsGet "COMMENT" = (c, true)) :
    additionalTypeOf field ≠ "" := by
  rw [additionalTypeOf_all field d c hd hc]
  intro h
  have hl := congrArg String.length h
  simp only [String.length_append] at hl
  have h8 : "DEFAULT ".length = 8 := by decide
  have h0 : "".length = 0 := by decide
  omega

theorem TrimRightSpace_space_append (c : String) (hs : spec.isSet c = true)
    (ht : spec.trimmed c = true) : strings.TrimRightSpace (" " ++ c) = " " ++ c := by
  have e1 : " ".data = [' '] := rfl
  apply String.ext
  simp only [strings.TrimRightSpace, String.data_append, e1, List.singleton_append]
  rw [trimRight_cons_eq, (trimmed_fixed c ht).2, if_neg ((isSet_iff c).mp hs)]

theorem append_ne_empty_left (a b : String) (ha : a ≠ "") : a ++ b ≠ "" := by
  intro h
  have hd := congrArg String.data h
  simp only [String.data_append] at hd
  have : a.data = [] := (List.append_eq_nil.mp hd).1
  exact ha (String.ext this)

theorem rawAdditionalType_ordered (field : StructField) :
    rawAdditionalType field = spec.orderedClauses field := by
  have e1 : " DEFAULT ".data = ' ' :: "DEFAULT ".data := rfl
  have e2 : " ".data = [' '] := rfl
  have e3 : " COMMENT ".data = ' ' :: "COMMENT ".data := rfl
  have e4 : "".data = [] := rfl
  unfold rawAdditionalType spec.orderedClauses spec.defaultClause spec.commentClause
    spec.notNullClause spec.uniqueClause spec.gap
  rcases hd : field.TagSettingsGet "DEFAULT" with ⟨d, bd⟩
  rcases hc : field.TagSettingsGet "COMMENT" with ⟨c, bc⟩
  cases bd <;> cases bc <;> apply String.ext <;> simp [String.data_append, e1, e2, e3, e4]

theorem trimLeft_decompose (s : List Char) :
    ∃ l, (∀ ch ∈ l, unicode.IsSpace ch = true) ∧ s = l ++ strings.trimLeft s :=
  ⟨s.takeWhile unicode.IsSpace, fun _ h => List.mem_takeWhile_imp h,
    (List.takeWhile_append_dropWhile _ _).symm⟩

theorem trimRight_decompose (s : List Char) :
    ∃ r, (∀ ch ∈ r, unicode.IsSpace ch = true) ∧ s = strings.trimRight s ++ r := by
  obtain ⟨l, hl, h⟩ := trimLeft_decompose s.reverse
  refine ⟨l.reverse, fun ch hch => hl ch (List.mem_reverse.mp hch), ?_⟩
  have h2 := congrArg List.reverse h
  rw [List.reverse_reverse, List.reverse_append] at h2
  rw [trimRight_eq]
  exact h2

theorem TrimSpace_decompose (s : String) :
    ∃ l r : String, (∀ ch ∈ l.data, unicode.IsSpace ch = true) ∧
      (∀ ch ∈ r.data, unicode.IsSpace ch = true) ∧ s = l ++ strings.TrimSpace s ++ r := by
  obtain ⟨l, hl, h1⟩ := trimLeft_decompose s.data
  obtain ⟨r, hr, h2⟩ := trimRight_decompose (strings.trimLeft s.data)
  refine ⟨String.mk l, String.mk r, hl, hr, ?_⟩
  apply String.ext
  simp only [String.data_append, strings.TrimSpace]
  rw [List.append_assoc, ← h2, ← h1]

theorem DataTypeOf_ordered (table : Char → Char) (field : StructField) (base : String)
    (hbase : oracle.baseType table field = some base) :
    oracle.DataTypeOf table field =
      some (base ++ spec.gap (spec.isSet (strings.TrimSpace (spec.orderedClauses field))) ++
        strings.TrimSpace (spec.orderedClauses field)) := by
  rw [DataTypeOf_of_baseType table field base hbase]
  show some (oracle.withAdditionalType base (strings.TrimSpace (rawAdditionalType field))) = _
  rw [rawAdditionalType_ordered, withAdditionalType_trimmed]
  by_cases h : strings.TrimSpace (spec.orderedClauses field) = ""
  · rw [if_pos h, h]
    have e : spec.gap (spec.isSet "") = "" := by decide
    rw [e]
    simp
  · rw [if_neg h]
    have e : spec.isSet (strings.TrimSpace (spec.orderedClauses field)) = true := by
      simpa [spec.isSet] using h
    rw [e]
    rfl

theorem additionalTypeOf_default_only (field : StructField) (d : String)
    (hd : field.TagSettingsGet "DEFAULT" = (d, true))
    (hc : (field.TagSettingsGet "COMMENT").2 = false) :
    additionalTypeOf field =
      "DEFAULT" ++ strings.TrimRightSpace (" " ++ d ++ " " ++
        (field.TagSettingsGet "NOT NULL").1 ++ " " ++ (field.TagSettingsGet "UNIQUE").1) := by
  have hsp : unicode.IsSpace ' ' = true := by decide
  have hD : unicode.IsSpace 'D' = false := by decide
  have hk : strings.trimRight ['D', 'E', 'F', 'A', 'U', 'L', 'T']
      = ['D', 'E', 'F', 'A', 'U', 'L', 'T'] := by decide
  have e1 : "DEFAULT ".data = ['D', 'E', 'F', 'A', 'U', 'L', 'T'] ++ [' '] := rfl
  have e2 : " ".data = [' '] := rfl
  have e3 : "DEFAULT".data = ['D', 'E', 'F', 'A', 'U', 'L', 'T'] := rfl
  have hraw := rawAdditionalType_data field
  simp only [hd, hc, if_true, Bool.false_eq_true, if_false, spec.defaultClause,
    spec.notNullClause, spec.uniqueClause, String.data_append, List.append_nil] at hraw
  apply String.ext
  show strings.trimRight (strings.trimLeft (rawAdditionalType field).data) = _
  rw [hraw]
  simp only [strings.TrimRightSpace, String.data_append, e1, e2, e3, List.cons_append,
    List.nil_append, trimLeft_cons, hsp, hD, if_true, Bool.false_eq_true, if_false,
    List.append_assoc]
  have h := trimRight_append ['D', 'E', 'F', 'A', 'U', 'L', 'T']
    (' ' :: (d.data ++ ' ' :: ((field.TagSettingsGet "NOT NULL").1.data ++
      ' ' :: (field.TagSettingsGet "UNIQUE").1.data)))
  simp only [List.cons_append, List.nil_append] at h
  rw [h]
  split
  · rename_i h0
    rw [h0, hk]
  · rfl

theorem additionalTypeOf_comment_only (field : StructField) (c : String)
    (hd : (field.TagSettingsGet "DEFAULT").2 = false)
    (hc : field.TagSettingsGet "COMMENT" = (c, true)) :
    additionalTypeOf field =
      strings.TrimLeftSpace ((field.TagSettingsGet "NOT NULL").1 ++ " " ++
        (field.TagSettingsGet "UNIQUE").1 ++ " ") ++ "COMMENT" ++
        strings.TrimRightSpace (" " ++ c) := by
  have hk : strings.trimRight ['C', 'O', 'M', 'M', 'E', 'N', 'T']
      = ['C', 'O', 'M', 'M', 'E', 'N', 'T'] := by decide
  have hkl : strings.trimLeft ['C', 'O', 'M', 'M', 'E', 'N', 'T']
      = ['C', 'O', 'M', 'M', 'E', 'N', 'T'] := by decide
  have hkne : ['C', 'O', 'M', 'M', 'E', 'N', 'T'] ≠ [] := by decide
  have e1 : "COMMENT ".data = ['C', 'O', 'M', 'M', 'E', 'N', 'T'] ++ [' '] := rfl
  have e2 : " ".data = [' '] := rfl
  have e3 : "COMMENT".data = ['C', 'O', 'M', 'M', 'E', 'N', 'T'] := rfl
  have hraw := rawAdditionalType_data field
  simp only [hd, hc, if_true, Bool.false_eq_true, if_false, spec.commentClause,
    spec.notNullClause, spec.uniqueClause, String.data_append, List.nil_append] at hraw
  have hsplit : (rawAdditionalType field).data =
      ((field.TagSettingsGet "NOT NULL").1.data ++
        ' ' :: ((field.TagSettingsGet "UNIQUE").1.data ++ [' '])) ++
      (['C', 'O', 'M', 'M', 'E', 'N', 'T'] ++ ' ' :: c.data) := by
    rw [hraw]
    simp
  have hb : strings.trimLeft (['C', 'O', 'M', 'M', 'E', 'N', 'T'] ++ (' ' :: c.data))
      = ['C', 'O', 'M', 'M', 'E', 'N', 'T'] ++ (' ' :: c.data) := by
    rw [trimLeft_append, hkl, if_neg hkne]
  have hl : strings.trimLeft (rawAdditionalType field).data =
      strings.trimLeft ((field.TagSettingsGet "NOT NULL").1.data ++
        ' ' :: ((field.TagSettingsGet "UNIQUE").1.data ++ [' '])) ++
      (['C', 'O', 'M', 'M', 'E', 'N', 'T'] ++ ' ' :: c.data) := by
    rw [hsplit, trimLeft_append]
    split
    · rename_i h0
      rw [h0, hb, List.nil_append]
    · rfl
  have hx : ∀ a : List Char, strings.trimRight (a ++ ['C', 'O', 'M', 'M', 'E', 'N', 'T'])
      = a ++ ['C', 'O', 'M', 'M', 'E', 'N', 'T'] := by
    intro a
    rw [trimRight_append, hk, if_neg hkne]
  apply String.ext
  show strings.trimRight (strings.trimLeft (rawAdditionalType field).data) = _
  rw [hl, ← List.append_assoc, trimRight_append, hx]
  simp only [strings.TrimLeftSpace, strings.TrimRightSpace, String.data_append, e2, e3,
    List.singleton_append, List.append_assoc]
  split
  · rename_i h0
    rw [h0, List.append_nil]
    simp
  · simp

theorem additionalTypeOf_neither (field : StructField)
    (hd : (field.TagSettingsGet "DEFAULT").2 = false)
    (hc : (field.TagSettingsGet "COMMENT").2 = false) :
    additionalTypeOf field =
      strings.TrimSpace ((field.TagSettingsGet "NOT NULL").1 ++ " " ++
        (field.TagSettingsGet "UNIQUE").1) := by
  unfold additionalTypeOf
  congr 1
  apply String.ext
  have e2 : " ".data = [' '] := rfl
  rw [rawAdditionalType_data]
  simp [hd, hc, spec.notNullClause, spec.uniqueClause, String.data_append, e2]

theorem DataTypeOf_tail (table : Char → Char) (field : StructField) (base : String)
    (hbase : oracle.baseType table field = some base) :
    oracle.DataTypeOf table field =
      some (if additionalTypeOf field = "" then base
        else base ++ " " ++ additionalTypeOf field) := by
  rw [DataTypeOf_of_baseType table field base hbase]
  exact congrArg some (withAdditionalType_trimmed base (rawAdditionalType field))

/-! ## Modifiers: the claims -/

/-- C7: with the `DEFAULT` and `COMMENT` settings present (values `d` and `c`) and the
`NOT NULL` and `UNIQUE` values `n` and `u`, `oracle.DataTypeOf` returns the base type
followed by `DEFAULT d`, then `n`, then `u`, then `COMMENT c`, in this order; the final
trim can only remove white space at the end of `c`. When only some modifiers are set, to
fragments without surrounding white space, the returned string is the base type followed
by the clauses that are set in the same order, separated by spaces only. For every field
and whatever the tag values are (they are not trimmed), the returned string is the base
type followed, after one space unless nothing is left, by the ordered clauses
`DEFAULT d`, `n`, `u`, `COMMENT c` with only white space removed at both ends: with
`DEFAULT` alone present it is the base type, ` DEFAULT`, then ` d n u` trimmed on the
right; with `COMMENT` alone present it is the base type, a space, `n u ` trimmed on the
left, `COMMENT`, then ` c` trimmed on the right; with neither it is the base type followed
by `n u` trimmed. -/
theorem DataTypeOf_modifier_order (table : Char → Char) (field : StructField) (base : String)
    (hbase : oracle.baseType table field = some base) :
    (∀ d c, field.TagSettingsGet "DEFAULT" = (d, true) →
      field.TagSettingsGet "COMMENT" = (c, true) →
      oracle.DataTypeOf table field =
          some (base ++ " DEFAULT " ++ d ++ " " ++ (field.TagSettingsGet "NOT NULL").1 ++ " " ++
            (field.TagSettingsGet "UNIQUE").1 ++ " COMMENT" ++
            strings.TrimRightSpace (" " ++ c)) ∧
        (spec.isSet c = true → spec.trimmed c = true →
          oracle.DataTypeOf table field =
            some (base ++ " DEFAULT " ++ d ++ " " ++ (field.TagSettingsGet "NOT NULL").1 ++
              " " ++ (field.TagSettingsGet "UNIQUE").1 ++ " COMMENT " ++ c))) ∧
    (spec.cleanSettings field = true →
      oracle.DataTypeOf table field =
        some (base ++
          spec.gap (spec.isSet (spec.defaultClause field) ||
            spec.isSet (spec.notNullClause field) || spec.isSet (spec.uniqueClause field) ||
            spec.isSet (spec.commentClause field)) ++
          (spec.defaultClause field ++
          spec.gap (spec.isSet (spec.defaultClause field) &&
            (spec.isSet (spec.notNullClause field) || spec.isSet (spec.uniqueClause field) ||
              spec.isSet (spec.commentClause field))) ++
          spec.notNullClause field ++
          spec.gap ((spec.isSet (spec.defaultClause field) ||
              spec.isSet (spec.notNullClause field)) &&
            (spec.isSet (spec.uniqueClause field) || spec.isSet (spec.commentClause field))) ++
          spec.uniqueClause field ++
          spec.gap (spec.isSet (spec.commentClause field) &&
            (spec.isSet (spec.defaultClause field) || spec.isSet (spec.notNullClause field) ||
              spec.isSet (spec.uniqueClause field))) ++
          spec.commentClause field))) ∧
    oracle.DataTypeOf table field =
      some (base ++ spec.gap (spec.isSet (strings.TrimSpace (spec.orderedClauses field))) ++
        strings.TrimSpace (spec.orderedClauses field)) ∧
    (∃ l r : String, (∀ ch ∈ l.data, unicode.IsSpace ch = true) ∧
      (∀ ch ∈ r.data, unicode.IsSpace ch = true) ∧
      spec.orderedClauses field = l ++ strings.TrimSpace (spec.orderedClauses field) ++ r) ∧
    (∀ d, field.TagSettingsGet "DEFAULT" = (d, true) →
      (field.TagSettingsGet "COMMENT").2 = false →
      oracle.DataTypeOf table field =
        some (base ++ " DEFAULT" ++ strings.TrimRightSpace (" " ++ d ++ " " ++
          (field.TagSettingsGet "NOT NULL").1 ++ " " ++ (field.TagSettingsGet "UNIQUE").1))) ∧
    (∀ c, (field.TagSettingsGet "DEFAULT").2 = false →
      field.TagSettingsGet "COMMENT" = (c, true) →
      oracle.DataTypeOf table field =
        some (base ++ " " ++ strings.TrimLeftSpace ((field.TagSettingsGet "NOT NULL").1 ++
          " " ++ (field.TagSettingsGet "UNIQUE").1 ++ " ") ++ "COMMENT" ++
          strings.TrimRightSpace (" " ++ c))) ∧
    ((field.TagSettingsGet "DEFAULT").2 = false →
      (field.TagSettingsGet "COMMENT").2 = false →
      oracle.DataTypeOf table field =
        some (base ++
          spec.gap (spec.isSet (strings.TrimSpace ((field.TagSettingsGet "NOT NULL").1 ++
            " " ++ (field.TagSettingsGet "UNIQUE").1))) ++
          strings.TrimSpace ((field.TagSettingsGet "NOT NULL").1 ++ " " ++
            (field.TagSettingsGet "UNIQUE").1))) := by
  have htail := DataTypeOf_tail table field base hbase
  refine ⟨fun d c hd hc => ?_, DataTypeOf_clean table field base hbase,
    DataTypeOf_ordered table field base hbase, TrimSpace_decompose _,
    fun d hd hc => ?_, fun c hd hc => ?_, fun hd hc => ?_⟩
  · have hall := additionalTypeOf_all field d c hd hc
    have hne := additionalTypeOf_all_ne field d c hd hc
    have hmain : oracle.DataTypeOf table field =
        some (base ++ " DEFAULT " ++ d ++ " " ++ (field.TagSettingsGet "NOT NULL").1 ++ " " ++
          (field.TagSettingsGet "UNIQUE").1 ++ " COMMENT" ++
          strings.TrimRightSpace (" " ++ c)) := by
      rw [htail, if_neg hne, hall]
      have e : (" DEFAULT " : String) = " " ++ "DEFAULT " := by decide
      simp only [spec.notNullClause, spec.uniqueClause, e, String.append_assoc]
    refine ⟨hmain, fun hs ht => ?_⟩
    rw [hmain, TrimRightSpace_space_append c hs ht]
    have e : (" COMMENT " : String) = " COMMENT" ++ " " := by decide
    simp only [e, String.append_assoc]
  · have hk : ("DEFAULT" : String) ≠ "" := by decide
    have e : (" DEFAULT" : String) = " " ++ "DEFAULT" := by decide
    rw [htail, additionalTypeOf_default_only field d hd hc,
      if_neg (append_ne_empty_left _ _ hk), e]
    simp only [String.append_assoc]
  · have hk : ("COMMENT" : String) ≠ "" := by decide
    have hne : strings.TrimLeftSpace ((field.TagSettingsGet "NOT NULL").1 ++ " " ++
        (field.TagSettingsGet "UNIQUE").1 ++ " ") ++ "COMMENT" ++
        strings.TrimRightSpace (" " ++ c) ≠ "" := by
      rw [String.append_assoc]
      intro h
      have hd := congrArg String.data h
      simp only [String.data_append] at hd
      have h2 := (List.append_eq_nil.mp hd).2
      exact append_ne_empty_left _ _ hk (String.ext h2)
    rw [htail, additionalTypeOf_comment_only field c hd hc, if_neg hne]
    simp only [String.append_assoc]
  · rw [htail, additionalTypeOf_neither field hd hc]
    by_cases h : strings.TrimSpace ((field.TagSettingsGet "NOT NULL").1 ++ " " ++
        (field.TagSettingsGet "UNIQUE").1) = ""
    · rw [if_pos h, h]
      have e : spec.gap (spec.isSet "") = "" := by decide
      rw [e]
      simp
    · rw [if_neg h]
      have e : spec.isSet (strings.TrimSpace ((field.TagSettingsGet "NOT NULL").1 ++ " " ++
          (field.TagSettingsGet "UNIQUE").1)) = true := by
        simpa [spec.isSet] using h
      rw [e]
      rfl

set_option maxRecDepth 100000 in
/-- Witness of C7: the text field with all four modifiers, and the text field whose
`DEFAULT` value ` 0` starts with a space, with `NOT NULL` and no comment: the value is
not trimmed, so two spaces follow `DEFAULT`. -/
theorem DataTypeOf_modifier_order_witness :
    oracle.baseType unicode.latin1Table sample.fullField = some "VARCHAR2(50)" ∧
    oracle.DataTypeOf unicode.latin1Table sample.fullField =
      some "VARCHAR2(50) DEFAULT \x27n/a\x27 NOT NULL UNIQUE COMMENT \x27name\x27" ∧
    oracle.baseType unicode.latin1Table sample.paddedDefaultField = some "VARCHAR2(255)" ∧
    spec.cleanSettings sample.paddedDefaultField = false ∧
    oracle.DataTypeOf unicode.latin1Table sample.paddedDefaultField =
      some "VARCHAR2(255) DEFAULT  0 NOT NULL" ∧
    spec.orderedClauses sample.paddedDefaultField = " DEFAULT  0 NOT NULL " ∧
    oracle.DataTypeOf unicode.latin1Table sample.commentedField =
      some "VARCHAR2(50) NOT NULL  COMMENT \x27name\x27" :=
  ⟨by decide,
    ((((DataTypeOf_modifier_order unicode.latin1Table sample.fullField "VARCHAR2(50)"
      (by decide)).1 "\x27n/a\x27" "\x27name\x27" (by decide) (by decide)).2
      (by decide) (by decide))).trans (by decide),
    by decide, by decide,
    ((DataTypeOf_modifier_order unicode.latin1Table sample.paddedDefaultField "VARCHAR2(255)"
      (by decide)).2.2.2.2.1 " 0" (by decide) (by decide)).trans (by decide),
    by decide,
    ((DataTypeOf_modifier_order unicode.latin1Table sample.commentedField "VARCHAR2(50)"
      (by decide)).2.2.2.2.2.1 "\x27name\x27" (by decide) (by decide)).trans (by decide)⟩

set_option maxRecDepth 100000 in
/-- C8, counterexample: the text field with `SIZE:50`, `NOT NULL` and a comment, without
`UNIQUE`, has clean settings and resolves to a string with two consecutive spaces, not to
the base type followed by each set modifier prefixed with one space. -/
theorem DataTypeOf_double_space :
    spec.cleanSettings sample.commentedField = true ∧
    oracle.baseType unicode.latin1Table sample.commentedField = some "VARCHAR2(50)" ∧
    oracle.DataTypeOf unicode.latin1Table sample.commentedField =
      some "VARCHAR2(50) NOT NULL  COMMENT \x27name\x27" ∧
    "VARCHAR2(50)" ++ spec.modifierTail sample.commentedField =
      "VARCHAR2(50) NOT NULL COMMENT \x27name\x27" ∧
    oracle.DataTypeOf unicode.latin1Table sample.commentedField ≠
      some ("VARCHAR2(50)" ++ spec.modifierTail sample.commentedField) := by
  decide

/-- C8, amended: for every field whose modifier settings are fragments without
surrounding white space and leave no empty `NOT NULL` or `UNIQUE` slot between two set
modifiers, `oracle.DataTypeOf` returns the base type followed by each set modifier
prefixed with exactly one space. -/
theorem DataTypeOf_single_spaced (table : Char → Char) (field : StructField) (base : String)
    (hbase : oracle.baseType table field = some base)
    (hclean : spec.cleanSettings field = true)
    (hcont : spec.contiguous field = true) :
    oracle.DataTypeOf table field = some (base ++ spec.modifierTail field) := by
  rw [DataTypeOf_clean table field base hbase hclean]
  unfold spec.contiguous at hcont
  unfold spec.modifierTail spec.spaced
  generalize spec.defaultClause field = p1 at hcont ⊢
  generalize spec.notNullClause field = n at hcont ⊢
  generalize spec.uniqueClause field = u at hcont ⊢
  generalize spec.commentClause field = p4 at hcont ⊢
  by_cases h1 : p1 = "" <;> by_cases hn : n = "" <;> by_cases hu : u = "" <;>
    by_cases h4 : p4 = "" <;>
    simp [spec.gap, spec.isSet, h1, hn, hu, h4, String.ext_iff, String.data_append] at hcont ⊢

set_option maxRecDepth 100000 in
/-- Witness of C8, amended: the text field with `SIZE:50` and `NOT NULL` resolves to
`VARCHAR2(50) NOT NULL`. -/
theorem DataTypeOf_single_spaced_witness :
    oracle.baseType unicode.latin1Table sample.nameField = some "VARCHAR2(50)" ∧
    spec.cleanSettings sample.nameField = true ∧
    spec.contiguous sample.nameField = true ∧
    oracle.DataTypeOf unicode.latin1Table sample.nameField = some "VARCHAR2(50) NOT NULL" :=
  ⟨by decide, by decide, by decide,
    (DataTypeOf_single_spaced unicode.latin1Table sample.nameField "VARCHAR2(50)" (by decide)
      (by decide) (by decide)).trans (by decide)⟩

/-! ## Kinds: facts and claims -/

theorem isScannerStruct_kind (t : GoType) (h : spec.isScannerStruct t = true) :
    t.Kind = reflect.Kind.Struct := by
  cases t <;> simp [spec.isScannerStruct] at h <;> rfl

theorem getScannerValue_not_scanner (t : GoType) (sticky embed : Bool)
    (h : spec.isScannerStruct t = false) :
    getScannerValue t sticky embed = some ⟨t, sticky, embed⟩ := by
  cases t <;> simp_all [spec.isScannerStruct, getScannerValue]

theorem baseType_not_scanner (table : Char → Char) (field : StructField)
    (hfix : fixedType table field = "")
    (hs : spec.isScannerStruct (indirectType field.structType) = false) :
    oracle.baseType table field =
      oracle.sqlTypeOf (reflect.zero (indirectType field.structType)) "" (fieldSize field) := by
  rw [baseType_of_empty table field hfix, getScannerValue_not_scanner _ _ _ hs]
  rfl

theorem fixedType_empty_of_no_type (table : Char → Char) (field : StructField)
    (hT : (field.TagSettingsGet "TYPE").1 = "")
    (hH : (indirectType field.structType).methods.gormDataType = none) :
    fixedType table field = "" := by
  rw [fixedType_of_no_hook table field hH, hT, normalizeType_empty]

theorem not_scanner_of_kind (t : GoType) (h : t.Kind ≠ reflect.Kind.Struct) :
    spec.isScannerStruct t = false := by
  cases hs : spec.isScannerStruct t
  · rfl
  · exact absurd (isScannerStruct_kind t hs) h

theorem additionalTypeOf_none (field : StructField)
    (hn : (field.TagSettingsGet "NOT NULL").1 = "")
    (hu : (field.TagSettingsGet "UNIQUE").1 = "")
    (hd : (field.TagSettingsGet "DEFAULT").2 = false)
    (hc : (field.TagSettingsGet "COMMENT").2 = false) :
    additionalTypeOf field = "" := by
  unfold additionalTypeOf rawAdditionalType
  rcases hd' : field.TagSettingsGet "DEFAULT" with ⟨d, bd⟩
  rcases hc' : field.TagSettingsGet "COMMENT" with ⟨c, bc⟩
  rw [hd'] at hd
  rw [hc'] at hc
  simp only at hd hc
  subst hd
  subst hc
  simp only [hn, hu]
  decide

theorem withAdditionalType_empty (sqlType : String) :
    oracle.withAdditionalType sqlType "" = sqlType := by
  have h : strings.TrimSpace "" = "" := by decide
  simp only [oracle.withAdditionalType, h, if_true]

/-- C11: for every field of kind `int64` or `uint64` (behind any number of pointers)
with no `TYPE` setting and no custom type hook, the base type of `oracle.DataTypeOf` is
`NUMBER(19)`, the same for the signed and the unsigned kind. -/
theorem DataTypeOf_int64 (table : Char → Char) (field : StructField)
    (hT : (field.TagSettingsGet "TYPE").1 = "")
    (hH : (indirectType field.structType).methods.gormDataType = none)
    (hK : (indirectType field.structType).Kind = reflect.Kind.Int64 ∨
      (indirectType field.structType).Kind = reflect.Kind.Uint64) :
    oracle.baseType table field = some "NUMBER(19)" ∧
    oracle.DataTypeOf table field =
      some (oracle.withAdditionalType "NUMBER(19)" (additionalTypeOf field)) := by
  have hfix := fixedType_empty_of_no_type table field hT hH
  have hs : spec.isScannerStruct (indirectType field.structType) = false := by
    apply not_scanner_of_kind
    rcases hK with h | h <;> rw [h] <;> decide
  have hbase : oracle.baseType table field = some "NUMBER(19)" := by
    rw [baseType_not_scanner table field hfix hs]
    rcases hK with h | h <;>
      simp [oracle.sqlTypeOf, oracle.kindType, reflect.zero, h]
  exact ⟨hbase, DataTypeOf_of_baseType table field _ hbase⟩

set_option maxRecDepth 100000 in
/-- Witness of C11: a field of type `int64` tagged `NOT NULL`. -/
theorem DataTypeOf_int64_witness :
    (sample.countField.TagSettingsGet "TYPE").1 = "" ∧
    (indirectType sample.countField.structType).methods.gormDataType = none ∧
    ((indirectType sample.countField.structType).Kind = reflect.Kind.Int64 ∨
      (indirectType sample.countField.structType).Kind = reflect.Kind.Uint64) ∧
    oracle.baseType unicode.latin1Table sample.countField = some "NUMBER(19)" ∧
    oracle.DataTypeOf unicode.latin1Table sample.countField = some "NUMBER(19) NOT NULL" :=
  ⟨by decide, by decide, by decide,
    (DataTypeOf_int64 unicode.latin1Table sample.countField (by decide) (by decide)
      (by decide)).1,
    (DataTypeOf_int64 unicode.latin1Table sample.countField (by decide) (by decide)
      (by decide)).2.trans (by decide)⟩

theorem IsByteArrayOrSlice_kind (t : GoType) (sticky embed : Bool)
    (h : IsByteArrayOrSlice ⟨t, sticky, embed⟩ = true) :
    t.Kind = reflect.Kind.Array ∨ t.Kind = reflect.Kind.Slice := by
  cases t <;> simp [IsByteArrayOrSlice] at h
  · exact Or.inl rfl
  · exact Or.inr rfl

/-- C12: for every field with no `TYPE` setting, no custom type hook and no modifier
settings, `oracle.DataTypeOf` returns the base type of the kind and nothing else:
`CHAR(1)` for a boolean, `NUMBER(10)` for the integer kinds of at most 32 bits including
`int`, `uint` and `uintptr`, `FLOAT` for the float kinds, `TIMESTAMP` for `time.Time`,
`BLOB` for a byte array or byte slice. -/
theorem DataTypeOf_kind_table (table : Char → Char) (field : StructField)
    (hT : (field.TagSettingsGet "TYPE").1 = "")
    (hH : (indirectType field.structType).methods.gormDataType = none)
    (hn : (field.TagSettingsGet "NOT NULL").1 = "")
    (hu : (field.TagSettingsGet "UNIQUE").1 = "")
    (hd : (field.TagSettingsGet "DEFAULT").2 = false)
    (hc : (field.TagSettingsGet "COMMENT").2 = false) :
    ((indirectType field.structType).Kind = reflect.Kind.Bool →
      oracle.DataTypeOf table field = some "CHAR(1)") ∧
    ((indirectType field.structType).Kind = reflect.Kind.Int ∨
      (indirectType field.structType).Kind = reflect.Kind.Int8 ∨
      (indirectType field.structType).Kind = reflect.Kind.Int16 ∨
      (indirectType field.structType).Kind = reflect.Kind.Int32 ∨
      (indirectType field.structType).Kind = reflect.Kind.Uint ∨
      (indirectType field.structType).Kind = reflect.Kind.Uint8 ∨
      (indirectType field.structType).Kind = reflect.Kind.Uint16 ∨
      (indirectType field.structType).Kind = reflect.Kind.Uint32 ∨
      (indirectType field.structType).Kind = reflect.Kind.Uintptr →
      oracle.DataTypeOf table field = some "NUMBER(10)") ∧
    ((indirectType field.structType).Kind = reflect.Kind.Float32 ∨
      (indirectType field.structType).Kind = reflect.Kind.Float64 →
      oracle.DataTypeOf table field = some "FLOAT") ∧
    (indirectType field.structType = GoType.timeTime →
      oracle.DataTypeOf table field = some "TIMESTAMP") ∧
    (IsByteArrayOrSlice (reflect.zero (indirectType field.structType)) = true →
      oracle.DataTypeOf table field = some "BLOB") := by
  have hfix := fixedType_empty_of_no_type table field hT hH
  have hplain : ∀ base, oracle.baseType table field = some base →
      oracle.DataTypeOf table field = some base := by
    intro base hbase
    rw [DataTypeOf_of_baseType table field base hbase, additionalTypeOf_none field hn hu hd hc,
      withAdditionalType_empty]
  have hkind : ∀ base, (indirectType field.structType).Kind ≠ reflect.Kind.Struct →
      oracle.sqlTypeOf (reflect.zero (indirectType field.structType)) "" (fieldSize field)
        = some base → oracle.DataTypeOf table field = some base := by
    intro base hk hsql
    apply hplain
    rw [baseType_not_scanner table field hfix (not_scanner_of_kind _ hk), hsql]
  refine ⟨?_, ?_, ?_, ?_, ?_⟩
  · intro h
    exact hkind _ (by rw [h]; decide)
      (by simp [oracle.sqlTypeOf, oracle.kindType, reflect.zero, h])
  · intro h
    rcases h with h | h | h | h | h | h | h | h | h <;>
      exact hkind _ (by rw [h]; decide)
        (by simp [oracle.sqlTypeOf, oracle.kindType, reflect.zero, h])
  · intro h
    rcases h with h | h <;>
      exact hkind _ (by rw [h]; decide)
        (by simp [oracle.sqlTypeOf, oracle.kindType, reflect.zero, h])
  · intro h
    apply hplain
    rw [baseType_not_scanner table field hfix (by rw [h]; decide), h]
    simp [oracle.sqlTypeOf, oracle.kindType, reflect.zero, reflect.Value.readOnly,
      GoType.timeTime, GoType.Kind]
  · intro h
    rcases IsByteArrayOrSlice_kind _ _ _ h with hk | hk <;>
      exact hkind _ (by rw [hk]; decide)
        (by simp [oracle.sqlTypeOf, oracle.kindType, reflect.zero, hk, h] at h ⊢)

set_option maxRecDepth 100000 in
/-- Witness of C12: a field of type `*bool` without tag settings resolves to `CHAR(1)`. -/
theorem DataTypeOf_kind_table_witness :
    (sample.activeField.TagSettingsGet "TYPE").1 = "" ∧
    (indirectType sample.activeField.structType).methods.gormDataType = none ∧
    (sample.activeField.TagSettingsGet "NOT NULL").1 = "" ∧
    (sample.activeField.TagSettingsGet "UNIQUE").1 = "" ∧
    (sample.activeField.TagSettingsGet "DEFAULT").2 = false ∧
    (sample.activeField.TagSettingsGet "COMMENT").2 = false ∧
    (indirectType sample.activeField.structType).Kind = reflect.Kind.Bool ∧
    oracle.DataTypeOf unicode.latin1Table sample.activeField = some "CHAR(1)" :=
  ⟨by decide, by decide, by decide, by decide, by decide, by decide, by decide,
    (DataTypeOf_kind_table unicode.latin1Table sample.activeField (by decide) (by decide)
      (by decide) (by decide) (by decide) (by decide)).1 (by decide)⟩

/-! ## Explicit types: facts and claims -/

theorem isPrefixOf_append_self (l m : List Char) : l.isPrefixOf (l ++ m) = true := by
  rw [List.isPrefixOf_iff_prefix]
  exact List.prefix_append l m

theorem containsChars_of_isPrefixOf (old s : List Char) (h : old.isPrefixOf s = true) :
    strings.containsChars old s = true := by
  cases s with
  | nil =>
    cases old with
    | nil => rfl
    | cons a as => simp [List.isPrefixOf] at h
  | cons c cs => simp [strings.containsChars, h]

theorem containsChars_append (old pre post : List Char) :
    strings.containsChars old (pre ++ old ++ post) = true := by
  induction pre with
  | nil =>
    apply containsChars_of_isPrefixOf
    simp [isPrefixOf_append_self old post]
  | cons a pre ih =>
    simp only [List.cons_append, strings.containsChars, Bool.or_eq_true]
    exact Or.inr ih

theorem replaceFirstChars_first (old new pre post : List Char) (hold : old ≠ [])
    (hfirst : ∀ k, k < pre.length → old.isPrefixOf ((pre ++ old ++ post).drop k) = false) :
    strings.replaceFirstChars old new (pre ++ old ++ post) = pre ++ new ++ post := by
  induction pre with
  | nil =>
    cases old with
    | nil => exact absurd rfl hold
    | cons c cs =>
      have hp : (c :: cs).isPrefixOf (c :: (cs ++ post)) = true :=
        isPrefixOf_append_self (c :: cs) post
      simp only [List.nil_append, List.cons_append, strings.replaceFirstChars, hp, if_true]
      simp
  | cons a pre ih =>
    have h0 := hfirst 0 (by simp)
    simp only [List.drop_zero, List.cons_append] at h0
    have hrest : ∀ k, k < pre.length →
        old.isPrefixOf ((pre ++ old ++ post).drop k) = false := by
      intro k hk
      have := hfirst (k + 1) (by simp; omega)
      simpa using this
    show strings.replaceFirstChars old new (a :: (pre ++ old ++ post)) = a :: (pre ++ new ++ post)
    rw [strings.replaceFirstChars, h0, if_neg (by simp), ih hrest]

theorem ToLower_data (table : Char → Char) (s : String) :
    (strings.ToLower table s).data = s.data.map (unicode.ToLower table) := rfl

theorem ToLower_nvarchar (table : Char → Char) :
    "nvarchar".data.map (unicode.ToLower table) = "nvarchar".data := by
  rfl

theorem ToLower_contains_nvarchar (table : Char → Char) (s : String) (pre post : List Char)
    (hs : s.data = pre ++ "nvarchar".data ++ post) :
    strings.Contains (strings.ToLower table s) "nvarchar" = true := by
  simp only [strings.Contains, ToLower_data, hs, List.map_append, ToLower_nvarchar]
  exact containsChars_append _ _ _

set_option maxRecDepth 100000 in
theorem nvarchar_ne_nil : "nvarchar".data ≠ [] := by decide

theorem normalizeType_nvarchar (table : Char → Char) (s : String) (pre post : List Char)
    (hs : s.data = pre ++ "nvarchar".data ++ post)
    (hfirst : ∀ k, k < pre.length → "nvarchar".data.isPrefixOf (s.data.drop k) = false)
    (h1 : strings.ToLower table s ≠ "bigint") (h2 : strings.ToLower table s ≠ "integer")
    (h3 : strings.ToLower table s ≠ "datetime") (h4 : strings.ToLower table s ≠ "tinyint") :
    normalizeType table s = String.mk (pre ++ "nvarchar2".data ++ post) := by
  have hc := ToLower_contains_nvarchar table s pre post hs
  simp only [normalizeType, h1, h2, h3, h4, hc, if_true, if_false]
  apply String.ext
  simp only [strings.ReplaceFirst]
  rw [hs] at hfirst ⊢
  exact replaceFirstChars_first _ _ pre post nvarchar_ne_nil hfirst

/-- C16: for every field with no custom type hook whose non-empty `TYPE` setting does not
lower to `bigint`, `integer`, `datetime` or `tinyint` and whose lowered form contains
neither `nvarchar` nor `binary`, the base type of `oracle.DataTypeOf` is the `TYPE`
setting as given, whatever the type of the field and the `SIZE` setting are. -/
theorem DataTypeOf_type_unchanged (table : Char → Char) (field : StructField)
    (hH : (indirectType field.structType).methods.gormDataType = none)
    (hne : (field.TagSettingsGet "TYPE").1 ≠ "")
    (h1 : strings.ToLower table (field.TagSettingsGet "TYPE").1 ≠ "bigint")
    (h2 : strings.ToLower table (field.TagSettingsGet "TYPE").1 ≠ "integer")
    (h3 : strings.ToLower table (field.TagSettingsGet "TYPE").1 ≠ "datetime")
    (h4 : strings.ToLower table (field.TagSettingsGet "TYPE").1 ≠ "tinyint")
    (hn : strings.Contains (strings.ToLower table (field.TagSettingsGet "TYPE").1) "nvarchar"
      = false)
    (hb : strings.Contains (strings.ToLower table (field.TagSettingsGet "TYPE").1) "binary"
      = false) :
    normalizeType table (field.TagSettingsGet "TYPE").1 = (field.TagSettingsGet "TYPE").1 ∧
    oracle.baseType table field = some (field.TagSettingsGet "TYPE").1 ∧
    oracle.DataTypeOf table field =
      some (oracle.withAdditionalType (field.TagSettingsGet "TYPE").1
        (additionalTypeOf field)) := by
  have hnorm : normalizeType table (field.TagSettingsGet "TYPE").1
      = (field.TagSettingsGet "TYPE").1 := by
    simp [normalizeType, h1, h2, h3, h4, hn, hb]
  have hfix : fixedType table field = (field.TagSettingsGet "TYPE").1 := by
    rw [fixedType_of_no_hook table field hH, hnorm]
  have hbase : oracle.baseType table field = some (field.TagSettingsGet "TYPE").1 := by
    rw [baseType_of_fixed table field (by rw [hfix]; exact hne), hfix]
  exact ⟨hnorm, hbase, DataTypeOf_of_baseType table field _ hbase⟩

set_option maxRecDepth 100000 in
/-- Witness of C16: the text field tagged `TYPE:CLOB` and `SIZE:50` resolves to `CLOB`. -/
theorem DataTypeOf_type_unchanged_witness :
    (indirectType sample.clobField.structType).methods.gormDataType = none ∧
    (sample.clobField.TagSettingsGet "TYPE").1 = "CLOB" ∧
    strings.ToLower unicode.latin1Table (sample.clobField.TagSettingsGet "TYPE").1 = "clob" ∧
    oracle.baseType unicode.latin1Table sample.clobField = some "CLOB" ∧
    oracle.DataTypeOf unicode.latin1Table sample.clobField = some "CLOB" :=
  ⟨by decide, by decide, by decide,
    (DataTypeOf_type_unchanged unicode.latin1Table sample.clobField (by decide) (by decide)
      (by decide) (by decide) (by decide) (by decide) (by decide) (by decide)).2.1,
    (DataTypeOf_type_unchanged unicode.latin1Table sample.clobField (by decide) (by decide)
      (by decide) (by decide) (by decide) (by decide) (by decide) (by decide)).2.2.trans
      (by decide)⟩

set_option maxRecDepth 100000 in
/-- C15, the code at the failing inputs: the `TYPE` settings `NVARCHAR(50)` and
`VARBINARY(16)` contain `nvarchar` and `binary` once lowered, and the base type is the
setting unchanged; in `NVARCHAR nvarchar(5)` the occurrence that is rewritten is the
second one. -/
theorem DataTypeOf_upper_case_types :
    strings.Contains (strings.ToLower unicode.latin1Table "NVARCHAR(50)") "nvarchar" = true ∧
    oracle.baseType unicode.latin1Table sample.upperNvarcharField = some "NVARCHAR(50)" ∧
    strings.Contains (strings.ToLower unicode.latin1Table "VARBINARY(16)") "binary" = true ∧
    oracle.baseType unicode.latin1Table sample.upperBinaryField = some "VARBINARY(16)" ∧
    oracle.baseType unicode.latin1Table sample.mixedNvarcharField
      = some "NVARCHAR nvarchar2(5)" := by
  decide

theorem containsChars_first (old : List Char) (hold : old ≠ []) (s : List Char)
    (h : strings.containsChars old s = true) :
    ∃ pre post, s = pre ++ old ++ post ∧
      ∀ k, k < pre.length → old.isPrefixOf (s.drop k) = false := by
  induction s with
  | nil =>
    cases old with
    | nil => exact absurd rfl hold
    | cons a as => simp [strings.containsChars] at h
  | cons c cs ih =>
    by_cases hp : old.isPrefixOf (c :: cs) = true
    · obtain ⟨post, hpost⟩ := List.isPrefixOf_iff_prefix.mp hp
      exact ⟨[], post, by simpa using hpost.symm, fun k hk => absurd hk (Nat.not_lt_zero k)⟩
    · have hrest : strings.containsChars old cs = true := by
        simpa [strings.containsChars, hp] using h
      obtain ⟨pre, post, hs, hfirst⟩ := ih hrest
      refine ⟨c :: pre, post, by rw [hs]; simp, ?_⟩
      intro k hk
      cases k with
      | zero =>
        rw [List.drop_zero]
        exact Bool.eq_false_iff.mpr hp
      | succ k =>
        rw [List.drop_succ_cons]
        exact hfirst k (by simpa using hk)

/-- C20: for every field without custom type hook whose `TYPE` setting is no
whole-string alias and has its first lower-case `nvarchar` after `pre` and before `post`
(every setting that contains `nvarchar` has such a place), the base type is `pre`,
`nvarchar2`, `post`: the occurrence is rewritten whatever follows it, also a `2`, and
nothing else is rewritten, also no `binary`. So `nvarchar2(50)` becomes `nvarchar22(50)`,
normalizing twice differs from normalizing once, and `nvarchar binary` becomes
`nvarchar2 binary`. -/
theorem normalizeType_not_idempotent (table : Char → Char) (field : StructField)
    (hH : (indirectType field.structType).methods.gormDataType = none)
    (h1 : strings.ToLower table (field.TagSettingsGet "TYPE").1 ≠ "bigint")
    (h2 : strings.ToLower table (field.TagSettingsGet "TYPE").1 ≠ "integer")
    (h3 : strings.ToLower table (field.TagSettingsGet "TYPE").1 ≠ "datetime")
    (h4 : strings.ToLower table (field.TagSettingsGet "TYPE").1 ≠ "tinyint") :
    (∀ pre post : List Char,
      (field.TagSettingsGet "TYPE").1.data = pre ++ "nvarchar".data ++ post →
      (∀ k, k < pre.length →
        "nvarchar".data.isPrefixOf ((field.TagSettingsGet "TYPE").1.data.drop k) = false) →
      normalizeType table (field.TagSettingsGet "TYPE").1 =
        String.mk (pre ++ "nvarchar2".data ++ post) ∧
      oracle.baseType table field = some (String.mk (pre ++ "nvarchar2".data ++ post))) ∧
    (strings.Contains (field.TagSettingsGet "TYPE").1 "nvarchar" = true →
      ∃ pre post : List Char,
        (field.TagSettingsGet "TYPE").1.data = pre ++ "nvarchar".data ++ post ∧
        ∀ k, k < pre.length →
          "nvarchar".data.isPrefixOf ((field.TagSettingsGet "TYPE").1.data.drop k) = false) ∧
    normalizeType table "nvarchar2(50)" = "nvarchar22(50)" ∧
    normalizeType table (normalizeType table "nvarchar(50)") ≠
      normalizeType table "nvarchar(50)" ∧
    normalizeType table "nvarchar binary" = "nvarchar2 binary" ∧
    normalizeType table "binary nvarchar" = "binary nvarchar2" := by
  have e1 : normalizeType table "nvarchar2(50)" = "nvarchar22(50)" := rfl
  have e2 : normalizeType table "nvarchar(50)" = "nvarchar2(50)" := rfl
  have e3 : normalizeType table "nvarchar binary" = "nvarchar2 binary" := rfl
  have e4 : normalizeType table "binary nvarchar" = "binary nvarchar2" := rfl
  refine ⟨?_, ?_, e1, ?_, e3, e4⟩
  · intro pre post hs hfirst
    have hnorm := normalizeType_nvarchar table _ pre post hs hfirst h1 h2 h3 h4
    have hfix : fixedType table field = String.mk (pre ++ "nvarchar2".data ++ post) := by
      rw [fixedType_of_no_hook table field hH, hnorm]
    have hne : fixedType table field ≠ "" := by
      rw [hfix]
      intro h
      have hd := congrArg String.data h
      simp at hd
    have hbase := baseType_of_fixed table field hne
    rw [hfix] at hbase
    exact ⟨hnorm, hbase⟩
  · intro hc
    exact containsChars_first _ nvarchar_ne_nil _ hc
  · rw [e2, e1]
    decide

set_option maxRecDepth 100000 in
/-- Witness of C20: the text field tagged `TYPE:nvarchar2(50)` resolves to
`nvarchar22(50)`. -/
theorem normalizeType_not_idempotent_witness :
    (indirectType sample.nvarchar2Field.structType).methods.gormDataType = none ∧
    strings.ToLower unicode.latin1Table (sample.nvarchar2Field.TagSettingsGet "TYPE").1
      = "nvarchar2(50)" ∧
    (sample.nvarchar2Field.TagSettingsGet "TYPE").1.data =
      [] ++ "nvarchar".data ++ "2(50)".data ∧
    oracle.baseType unicode.latin1Table sample.nvarchar2Field = some "nvarchar22(50)" :=
  ⟨by decide, by decide, by decide,
    ((normalizeType_not_idempotent unicode.latin1Table sample.nvarchar2Field
      (by decide) (by decide) (by decide) (by decide) (by decide)).1 [] "2(50)".data
      (by decide) (fun k hk => absurd hk (Nat.not_lt_zero k))).2.trans (by decide)⟩

/-! ## Empty modifiers: facts and claims -/

theorem trimRight_append_fixed (x y : List Char) (hx : strings.trimRight x = x) :
    strings.trimRight (x ++ y) = x ++ strings.trimRight y := by
  rw [trimRight_append]
  split
  · rename_i h
    rw [h, hx, List.append_nil]
  · rfl

theorem trimLeft_append_exists (a b : List Char) (hb : strings.trimLeft b = b) :
    ∃ a', strings.trimLeft (a ++ b) = a' ++ b := by
  rw [trimLeft_append]
  split
  · exact ⟨[], by rw [hb, List.nil_append]⟩
  · exact ⟨strings.trimLeft a, rfl⟩

theorem additionalTypeOf_default (field : StructField) (d : String)
    (hd : field.TagSettingsGet "DEFAULT" = (d, true)) :
    ∃ rest, additionalTypeOf field = "DEFAULT" ++ rest := by
  have hsp : unicode.IsSpace ' ' = true := by decide
  have hD : unicode.IsSpace 'D' = false := by decide
  have hk : strings.trimRight ['D', 'E', 'F', 'A', 'U', 'L', 'T']
      = ['D', 'E', 'F', 'A', 'U', 'L', 'T'] := by decide
  have hraw := rawAdditionalType_data field
  simp only [hd, if_true, spec.defaultClause, String.data_append] at hraw
  obtain ⟨y, hy⟩ : ∃ y, strings.trimLeft (rawAdditionalType field).data
      = ['D', 'E', 'F', 'A', 'U', 'L', 'T'] ++ y := by
    rw [hraw]
    simp only [List.cons_append, trimLeft_cons, hsp, hD, if_true, Bool.false_eq_true, if_false]
    exact ⟨_, rfl⟩
  refine ⟨String.mk (strings.trimRight y), ?_⟩
  apply String.ext
  show strings.trimRight (strings.trimLeft (rawAdditionalType field).data)
    = ['D', 'E', 'F', 'A', 'U', 'L', 'T'] ++ strings.trimRight y
  rw [hy, trimRight_append_fixed _ _ hk]

theorem additionalTypeOf_comment (field : StructField) (c : String)
    (hc : field.TagSettingsGet "COMMENT" = (c, true)) :
    ∃ pre rest, additionalTypeOf field = pre ++ "COMMENT" ++ rest := by
  have hk : strings.trimRight ['C', 'O', 'M', 'M', 'E', 'N', 'T']
      = ['C', 'O', 'M', 'M', 'E', 'N', 'T'] := by decide
  have hkl : strings.trimLeft ['C', 'O', 'M', 'M', 'E', 'N', 'T']
      = ['C', 'O', 'M', 'M', 'E', 'N', 'T'] := by decide
  have hkne : ['C', 'O', 'M', 'M', 'E', 'N', 'T'] ≠ [] := by decide
  have hraw := rawAdditionalType_data field
  simp only [hc, if_true, spec.commentClause, String.data_append] at hraw
  obtain ⟨a, ha⟩ : ∃ a, (rawAdditionalType field).data =
      a ++ (['C', 'O', 'M', 'M', 'E', 'N', 'T'] ++ (' ' :: c.data)) := by
    rw [hraw]
    exact ⟨(if (field.TagSettingsGet "DEFAULT").2 = true then
        ' ' :: ((spec.defaultClause field).data ++ [' ']) else []) ++
        ((spec.notNullClause field).data ++ ' ' :: (spec.uniqueClause field).data) ++ [' '],
      by simp⟩
  have hb : strings.trimLeft (['C', 'O', 'M', 'M', 'E', 'N', 'T'] ++ (' ' :: c.data))
      = ['C', 'O', 'M', 'M', 'E', 'N', 'T'] ++ (' ' :: c.data) := by
    rw [trimLeft_append, hkl, if_neg hkne]
  obtain ⟨a', ha'⟩ := trimLeft_append_exists a _ hb
  have hx : strings.trimRight (a' ++ ['C', 'O', 'M', 'M', 'E', 'N', 'T'])
      = a' ++ ['C', 'O', 'M', 'M', 'E', 'N', 'T'] := by
    rw [trimRight_append, hk, if_neg hkne]
  refine ⟨String.mk a', String.mk (strings.trimRight (' ' :: c.data)), ?_⟩
  apply String.ext
  show strings.trimRight (strings.trimLeft (rawAdditionalType field).data)
    = a' ++ ['C', 'O', 'M', 'M', 'E', 'N', 'T'] ++ strings.trimRight (' ' :: c.data)
  rw [ha, ha', ← List.append_assoc, trimRight_append_fixed _ _ hx]

theorem ParseFieldStruct_congr (table : Char → Char) (f g : StructField)
    (ht : g.structType = f.structType)
    (hkeys : ∀ key, key ≠ "NOT NULL" → key ≠ "UNIQUE" →
      g.TagSettingsGet key = f.TagSettingsGet key)
    (hn : (g.TagSettingsGet "NOT NULL").1 = (f.TagSettingsGet "NOT NULL").1)
    (hu : (g.TagSettingsGet "UNIQUE").1 = (f.TagSettingsGet "UNIQUE").1) :
    ParseFieldStructForDialectOracle table g = ParseFieldStructForDialectOracle table f := by
  have hT := hkeys "TYPE" (by decide) (by decide)
  have hS := hkeys "SIZE" (by decide) (by decide)
  have hD := hkeys "DEFAULT" (by decide) (by decide)
  have hC := hkeys "COMMENT" (by decide) (by decide)
  have h1 : fixedType table g = fixedType table f := by
    simp only [fixedType, ht, hT]
  have h2 : fieldSize g = fieldSize f := by
    simp only [fieldSize, hS]
  have h3 : additionalTypeOf g = additionalTypeOf f := by
    simp only [additionalTypeOf, rawAdditionalType, hn, hu, hD, hC]
  simp only [ParseFieldStructForDialectOracle, h1, h2, h3, ht]

set_option maxRecDepth 100000 in
/-- C14, counterexample: a text field with `SIZE:50` and a `DEFAULT` setting whose value
is empty resolves to `VARCHAR2(50) DEFAULT`, with the bare keyword, while the same field
without the setting resolves to `VARCHAR2(50)`; likewise for an empty `COMMENT`. -/
theorem DataTypeOf_bare_keyword :
    sample.emptyDefaultField.TagSettingsGet "DEFAULT" = ("", true) ∧
    oracle.DataTypeOf unicode.latin1Table sample.emptyDefaultField
      = some "VARCHAR2(50) DEFAULT" ∧
    sample.emptyCommentField.TagSettingsGet "COMMENT" = ("", true) ∧
    oracle.DataTypeOf unicode.latin1Table sample.emptyCommentField
      = some "VARCHAR2(50) COMMENT" ∧
    oracle.DataTypeOf unicode.latin1Table sample.sizeField = some "VARCHAR2(50)" ∧
    oracle.DataTypeOf unicode.latin1Table sample.emptyDefaultField ≠
      oracle.DataTypeOf unicode.latin1Table sample.sizeField ∧
    oracle.DataTypeOf unicode.latin1Table sample.emptyCommentField ≠
      oracle.DataTypeOf unicode.latin1Table sample.sizeField := by
  decide

/-- C14, amended: a `NOT NULL` or `UNIQUE` setting that is present with an empty value
yields the same result as when it is absent (only the value of these two settings is
read); a field without any modifier resolves to the base type alone; but a `DEFAULT` or
`COMMENT` setting that is present, even with an empty value, always puts its keyword
after the base type. -/
theorem DataTypeOf_empty_modifiers (table : Char → Char) (field : StructField)
    (base : String) (hbase : oracle.baseType table field = some base) :
    (∀ other : StructField, other.structType = field.structType →
      (∀ key, key ≠ "NOT NULL" → key ≠ "UNIQUE" →
        other.TagSettingsGet key = field.TagSettingsGet key) →
      (other.TagSettingsGet "NOT NULL").1 = (field.TagSettingsGet "NOT NULL").1 →
      (other.TagSettingsGet "UNIQUE").1 = (field.TagSettingsGet "UNIQUE").1 →
      oracle.DataTypeOf table other = oracle.DataTypeOf table field) ∧
    ((field.TagSettingsGet "NOT NULL").1 = "" → (field.TagSettingsGet "UNIQUE").1 = "" →
      (field.TagSettingsGet "DEFAULT").2 = false → (field.TagSettingsGet "COMMENT").2 = false →
      oracle.DataTypeOf table field = some base) ∧
    (∀ d, field.TagSettingsGet "DEFAULT" = (d, true) →
      ∃ rest, oracle.DataTypeOf table field = some (base ++ " " ++ "DEFAULT" ++ rest)) ∧
    (∀ c, field.TagSettingsGet "COMMENT" = (c, true) →
      ∃ pre rest,
        oracle.DataTypeOf table field = some (base ++ " " ++ pre ++ "COMMENT" ++ rest)) := by
  have hw : oracle.withAdditionalType base (additionalTypeOf field) =
      if additionalTypeOf field = "" then base else base ++ " " ++ additionalTypeOf field :=
    withAdditionalType_trimmed base (rawAdditionalType field)
  refine ⟨?_, ?_, ?_, ?_⟩
  · intro other ht hkeys hn hu
    simp only [oracle.DataTypeOf, ParseFieldStruct_congr table field other ht hkeys hn hu]
  · intro hn hu hd hc
    rw [DataTypeOf_of_baseType table field base hbase, additionalTypeOf_none field hn hu hd hc,
      withAdditionalType_empty]
  · intro d hd
    obtain ⟨rest, hrest⟩ := additionalTypeOf_default field d hd
    refine ⟨rest, ?_⟩
    rw [DataTypeOf_of_baseType table field base hbase, hw, hrest,
      if_neg (append_ne_empty_left _ _ (by decide))]
    simp only [String.append_assoc]
  · intro c hc
    obtain ⟨pre, rest, hrest⟩ := additionalTypeOf_comment field c hc
    refine ⟨pre, rest, ?_⟩
    have hne : pre ++ "COMMENT" ++ rest ≠ "" := by
      intro h
      have hd := congrArg String.data h
      simp [String.data_append] at hd
    rw [DataTypeOf_of_baseType table field base hbase, hw, hrest, if_neg hne]
    simp only [String.append_assoc]

set_option maxRecDepth 100000 in
/-- Witness of C14, amended: the text field with `SIZE:50` and an empty `NOT NULL`
setting resolves like the field with `SIZE:50` alone. -/
theorem DataTypeOf_empty_modifiers_witness :
    oracle.baseType unicode.latin1Table sample.sizeField = some "VARCHAR2(50)" ∧
    sample.emptyNotNullField.TagSettingsGet "NOT NULL" = ("", true) ∧
    sample.sizeField.TagSettingsGet "NOT NULL" = ("", false) ∧
    oracle.DataTypeOf unicode.latin1Table sample.emptyNotNullField =
      oracle.DataTypeOf unicode.latin1Table sample.sizeField :=
  ⟨by decide, by decide, by decide,
    (DataTypeOf_empty_modifiers unicode.latin1Table sample.sizeField "VARCHAR2(50)"
      (by decide)).1 sample.emptyNotNullField rfl
      (fun key h1 _ => by
        simp only [sample.emptyNotNullField, sample.sizeField, StructField.TagSettingsGet,
          List.lookup]
        have h1' : (key == "NOT NULL") = false := by simpa using h1
        simp [h1'])
      (by decide) (by decide)⟩

/-! ## Limit and offset -/

set_option maxRecDepth 100000 in
/-- C13, the code at the failing input: for the string limit `10` the printed form parses
to 10, and the fragment is ` ROWNUM <= %!d(string=10)`, not ` ROWNUM <= 10` as for the
integer limit 10. Whatever the limit and the offset are, the error is `nil` and the
offset is not read; a `nil` limit gives the empty string. -/
theorem LimitAndOffsetSQL_string_limit :
    fmt.Sprint (Arg.str "10") = "10" ∧
    strconv.ParseInt "10" = some 10 ∧
    oracle.LimitAndOffsetSQL (some (Arg.str "10")) none
      = (" ROWNUM <= %!d(string=10)", none) ∧
    oracle.LimitAndOffsetSQL (some (Arg.int 10)) none = (" ROWNUM <= 10", none) ∧
    oracle.LimitAndOffsetSQL (some (Arg.int (-1))) none = ("", none) ∧
    oracle.LimitAndOffsetSQL (some (Arg.str "ten")) none = ("", none) ∧
    (∀ limit offset, (oracle.LimitAndOffsetSQL limit offset).2 = none ∧
      oracle.LimitAndOffsetSQL limit offset = oracle.LimitAndOffsetSQL limit none) ∧
    (∀ offset, oracle.LimitAndOffsetSQL none offset = ("", none)) := by
  refine ⟨by decide, by decide, by decide, by decide, by decide, by decide, ?_, ?_⟩
  · intro limit offset
    exact ⟨rfl, rfl⟩
  · intro offset
    rfl

/-! ## Scanner unwrapping: facts and claims -/

theorem getScannerValue_unwraps (t : GoType) :
    ∀ (sticky embed : Bool) (value : reflect.Value),
      getScannerValue t sticky embed = some value →
        spec.Unwraps t value.typ ∧ spec.isScannerStruct value.typ = false := by
  induction t with
  | basic k name m =>
    intro sticky embed value h
    simp only [getScannerValue, Option.some.injEq] at h
    subst h
    exact ⟨spec.Unwraps.stop _ rfl, rfl⟩
  | ptr elem _ =>
    intro sticky embed value h
    simp only [getScannerValue, Option.some.injEq] at h
    subst h
    exact ⟨spec.Unwraps.stop _ rfl, rfl⟩
  | array name m len elem _ =>
    intro sticky embed value h
    simp only [getScannerValue, Option.some.injEq] at h
    subst h
    exact ⟨spec.Unwraps.stop _ rfl, rfl⟩
  | slice name m elem _ =>
    intro sticky embed value h
    simp only [getScannerValue, Option.some.injEq] at h
    subst h
    exact ⟨spec.Unwraps.stop _ rfl, rfl⟩
  | structEmpty name m =>
    intro sticky embed value h
    by_cases hm : m.scanner = true
    · simp [getScannerValue, hm] at h
    · simp only [getScannerValue, hm, Bool.false_eq_true, if_false, Option.some.injEq] at h
      subst h
      have hs : spec.isScannerStruct (GoType.structEmpty name m) = false := by
        simpa [spec.isScannerStruct] using hm
      exact ⟨spec.Unwraps.stop _ hs, hs⟩
  | struct name m access member ih =>
    intro sticky embed value h
    by_cases hm : m.scanner = true
    · simp only [getScannerValue, hm, if_true] at h
      obtain ⟨hu, hv⟩ := ih _ _ value h
      exact ⟨spec.Unwraps.first name m access member _ hm hu, hv⟩
    · simp only [getScannerValue, hm, Bool.false_eq_true, if_false, Option.some.injEq] at h
      subst h
      have hs : spec.isScannerStruct (GoType.struct name m access member) = false := by
        simpa [spec.isScannerStruct] using hm
      exact ⟨spec.Unwraps.stop _ hs, hs⟩

theorem unwraps_getScannerValue (t t' : GoType) (h : spec.Unwraps t t') :
    ∀ (sticky embed : Bool), ∃ value,
      getScannerValue t sticky embed = some value ∧ value.typ = t' := by
  induction h with
  | stop t hs =>
    intro sticky embed
    exact ⟨_, getScannerValue_not_scanner t sticky embed hs, rfl⟩
  | first name m access member t hm _ ih =>
    intro sticky embed
    obtain ⟨value, hv, ht⟩ := ih (sticky || access = .unexported) (access = .embeddedUnexported)
    exact ⟨value, by simp only [getScannerValue, hm, if_true]; exact hv, ht⟩

theorem parse_of_fixed (table : Char → Char) (field : StructField)
    (h : fixedType table field ≠ "") :
    ParseFieldStructForDialectOracle table field =
      some (reflect.zero (indirectType field.structType), fixedType table field,
        fieldSize field, additionalTypeOf field) := by
  simp only [ParseFieldStructForDialectOracle, h, if_false]

set_option maxRecDepth 100000 in
/-- C17: when the `TYPE` setting is empty and the hook is absent or returns the empty
string, `oracle.DataTypeOf` infers the base type, by the kind switch, from the value
reached by taking the first member again and again while the current value is a scanner
struct; a scanner struct whose first member is an `int64` resolves to `NUMBER(19)`. The
unwrapping of a type always ends, on a value that is no scanner struct or on the panic
of `Field(0)` at a scanner struct without fields. When a type string is fixed the value
is not unwrapped and the base type is that string. -/
theorem DataTypeOf_scanner_unwrap (table : Char → Char) (field : StructField) :
    ((field.TagSettingsGet "TYPE").1 = "" →
      ((indirectType field.structType).methods.gormDataType = none ∨
        (indirectType field.structType).methods.gormDataType = some "") →
      (∀ t, spec.Unwraps (indirectType field.structType) t →
        ∃ value, getScannerValue (indirectType field.structType) false false = some value ∧
          value.typ = t ∧ spec.isScannerStruct t = false ∧
          oracle.baseType table field = oracle.sqlTypeOf value "" (fieldSize field)) ∧
      (∀ name m access intName intMethods,
        indirectType field.structType =
          GoType.struct name m access (GoType.basic BasicKind.Int64 intName intMethods) →
        m.scanner = true → oracle.baseType table field = some "NUMBER(19)")) ∧
    (∀ t sticky embed,
      (∃ value, getScannerValue t sticky embed = some value ∧ spec.Unwraps t value.typ ∧
        spec.isScannerStruct value.typ = false) ∨
      (getScannerValue t sticky embed = none ∧ ¬ ∃ t', spec.Unwraps t t')) ∧
    (fixedType table field ≠ "" →
      ParseFieldStructForDialectOracle table field =
        some (reflect.zero (indirectType field.structType), fixedType table field,
          fieldSize field, additionalTypeOf field) ∧
      oracle.baseType table field = some (fixedType table field)) ∧
    oracle.DataTypeOf unicode.latin1Table sample.nullInt64Field = some "NUMBER(19)" ∧
    oracle.DataTypeOf unicode.latin1Table sample.nullInt64ClobField = some "CLOB" := by
  refine ⟨?_, ?_, ?_, by decide, by decide⟩
  · intro hT hH
    have hfix : fixedType table field = "" := by
      rcases hH with h | h
      · exact fixedType_empty_of_no_type table field hT h
      · exact fixedType_of_hook table field "" h
    have hbase := baseType_of_empty table field hfix
    constructor
    · intro t ht
      obtain ⟨value, hv, hty⟩ := unwraps_getScannerValue _ _ ht false false
      refine ⟨value, hv, hty, ?_, ?_⟩
      · rw [← hty]
        exact (getScannerValue_unwraps _ _ _ _ hv).2
      · rw [hbase, hv]
        rfl
    · intro name m access intName intMethods hty hm
      rw [hbase, hty]
      simp [getScannerValue, hm, oracle.sqlTypeOf, oracle.kindType, GoType.Kind,
        BasicKind.toKind]
  · intro t sticky embed
    cases hg : getScannerValue t sticky embed with
    | none =>
      refine Or.inr ⟨rfl, ?_⟩
      rintro ⟨t', ht'⟩
      obtain ⟨value, hv, _⟩ := unwraps_getScannerValue _ _ ht' sticky embed
      rw [hg] at hv
      exact absurd hv (by simp)
    | some value =>
      exact Or.inl ⟨value, rfl, getScannerValue_unwraps _ _ _ _ hg⟩
  · intro hfix
    refine ⟨parse_of_fixed table field hfix, baseType_of_fixed table field hfix⟩

/-! ## The sanitized field name: facts and claims -/

theorem isUnderscore_nonLetter (c : Char) (h : isUnderscore c = true) : nonLetter c = true := by
  have hc : c = '_' := by simpa [isUnderscore] using h
  subst hc
  decide

theorem span_drop (p : Char → Bool) (s : List Char) :
    ∀ k, k ≤ span p s → span p (s.drop k) = span p s - k := by
  induction s with
  | nil => intro k _; simp [span]
  | cons c cs ih =>
    intro k hk
    cases k with
    | zero => simp
    | succ k =>
      by_cases hc : p c = true
      · simp only [span, hc, if_true] at hk ⊢
        rw [List.drop_succ_cons, ih k (by omega)]
        omega
      · simp [span, hc] at hk

theorem span_drop_span (p q : Char → Bool) (hqp : ∀ c, q c = true → p c = true)
    (s : List Char) : span q (s.drop (span p s)) = 0 := by
  induction s with
  | nil => simp [span]
  | cons c cs ih =>
    by_cases hc : p c = true
    · simp only [span, hc, if_true, List.drop_succ_cons]
      exact ih
    · have hq : ¬ q c = true := fun h => hc (hqp c h)
      simp [span, hc, hq]

theorem span_le (p q : Char → Bool) (hqp : ∀ c, q c = true → p c = true) (s : List Char) :
    span q s ≤ span p s := by
  induction s with
  | nil => simp [span]
  | cons c cs ih =>
    by_cases hq : q c = true
    · simp only [span, hq, hqp c hq, if_true]
      omega
    · simp [span, hq]

theorem span_append (p : Char → Bool) (a b : List Char) (ha : ∀ c ∈ a, p c = true) :
    span p (a ++ b) = a.length + span p b := by
  induction a with
  | nil => simp
  | cons c cs ih =>
    have hc : p c = true := ha c (List.mem_cons_self _ _)
    have hcs : ∀ d ∈ cs, p d = true := fun d hd => ha d (List.mem_cons_of_mem _ hd)
    have ih' := ih hcs
    show span p (c :: (cs ++ b)) = (c :: cs).length + span p b
    simp only [span, hc, if_true, ih', List.length_cons]
    omega

theorem matchFirstAlt_eq (s : List Char) (hpos : 1 ≤ span nonLetter s) :
    ∀ k, k ≤ span isUnderscore s → matchFirstAlt s k = some (span nonLetter s) := by
  have hzero := span_drop_span nonLetter isUnderscore isUnderscore_nonLetter s
  have hle := span_le nonLetter isUnderscore isUnderscore_nonLetter s
  intro k
  induction k with
  | zero =>
    intro _
    simp only [matchFirstAlt, hpos, if_true, hzero, Nat.add_zero]
  | succ k ih =>
    intro hk
    have hm := span_drop nonLetter s (k + 1) (by omega)
    by_cases h1 : 1 ≤ span nonLetter (s.drop (k + 1))
    · have hsum : k + 1 + span nonLetter (s.drop (k + 1)) = span nonLetter s := by omega
      simp only [matchFirstAlt, h1, if_true, hsum, hzero, Nat.add_zero]
    · simp only [matchFirstAlt, h1, if_false]
      exact ih (by omega)

theorem matchKeyChars_nonLetter (c : Char) (cs : List Char) (h : nonLetter c = true) :
    matchKeyChars (c :: cs) = some (span nonLetter cs + 1) := by
  have hpos := span_nonLetter_pos c cs h
  have hspan : span nonLetter (c :: cs) = span nonLetter cs + 1 := by simp [span, h]
  simp only [matchKeyChars, matchFirstAlt_eq (c :: cs) hpos _ (Nat.le_refl _), hspan]

theorem matchKeyChars_letter (c : Char) (cs : List Char) (h : isLetter c = true) :
    matchKeyChars (c :: cs) = none := by
  have hn : nonLetter c = false := by simp [nonLetter, h]
  have hu : isUnderscore c = false := by
    cases hu : isUnderscore c
    · rfl
    · rw [isUnderscore_nonLetter c hu] at hn
      exact absurd hn (by simp)
  simp [matchKeyChars, matchFirstAlt, matchSecondAlt, span, hn, hu]

theorem replaceKeyChars_skip (s : List Char) :
    ∀ k, replaceKeyChars k s = replaceKeyChars 0 (s.drop k) := by
  induction s with
  | nil => intro k; simp [replaceKeyChars]
  | cons c cs ih =>
    intro k
    cases k with
    | zero => simp
    | succ k => rw [replaceKeyChars, List.drop_succ_cons, ih k]

theorem collapseRuns_true (s : List Char) :
    spec.collapseRuns true s = spec.collapseRuns false (s.drop (span nonLetter s)) := by
  induction s with
  | nil => simp [spec.collapseRuns, span]
  | cons c cs ih =>
    by_cases hc : isLetter c = true
    · simp [spec.collapseRuns, span, nonLetter, hc]
    · simp [spec.collapseRuns, span, nonLetter, hc, ih]

theorem replaceKeyChars_letter (c : Char) (cs : List Char) (h : isLetter c = true) :
    replaceKeyChars 0 (c :: cs) = c :: replaceKeyChars 0 cs := by
  simp only [replaceKeyChars, matchKeyChars_letter c cs h]

theorem replaceKeyChars_nonLetter (c : Char) (cs : List Char) (h : nonLetter c = true) :
    replaceKeyChars 0 (c :: cs) =
      '_' :: replaceKeyChars 0 (cs.drop (span nonLetter cs)) := by
  simp only [replaceKeyChars, matchKeyChars_nonLetter c cs h]
  rw [replaceKeyChars_skip]

theorem replaceKeyChars_collapse_aux :
    ∀ n (s : List Char), s.length ≤ n → replaceKeyChars 0 s = spec.collapseRuns false s := by
  intro n
  induction n with
  | zero =>
    intro s hs
    have : s = [] := List.eq_nil_of_length_eq_zero (by omega)
    subst this
    rfl
  | succ n ih =>
    intro s hs
    cases s with
    | nil => rfl
    | cons c cs =>
      simp only [List.length_cons] at hs
      by_cases hc : isLetter c = true
      · rw [replaceKeyChars_letter c cs hc, ih cs (by omega)]
        simp [spec.collapseRuns, hc]
      · have hn : nonLetter c = true := by simp [nonLetter, hc]
        rw [replaceKeyChars_nonLetter c cs hn,
          ih (cs.drop (span nonLetter cs)) (by rw [List.length_drop]; omega),
          ← collapseRuns_true]
        simp [spec.collapseRuns, hc]

theorem replaceKeyChars_collapse (s : List Char) :
    replaceKeyChars 0 s = spec.collapseRuns false s :=
  replaceKeyChars_collapse_aux s.length s (Nat.le_refl _)

theorem collapseRuns_filter (s : List Char) :
    ∀ b, (spec.collapseRuns b s).filter isLetter = s.filter isLetter := by
  have hu : isLetter '_' = false := by decide
  induction s with
  | nil => intro b; rfl
  | cons c cs ih =>
    intro b
    by_cases hc : isLetter c = true
    · simp [spec.collapseRuns, hc, ih false]
    · cases b <;> simp [spec.collapseRuns, hc, hu, ih true]

theorem noAdjacent_cons (c : Char) (s : List Char) (hc : c ≠ '_')
    (h : spec.noAdjacentUnderscores s = true) : spec.noAdjacentUnderscores (c :: s) = true := by
  cases s with
  | nil => rfl
  | cons d ds => simp [spec.noAdjacentUnderscores, hc, h]

theorem noAdjacent_underscore_cons (c : Char) (s : List Char) (hc : c ≠ '_')
    (h : spec.noAdjacentUnderscores (c :: s) = true) :
    spec.noAdjacentUnderscores ('_' :: c :: s) = true := by
  simp [spec.noAdjacentUnderscores, hc, h]

theorem collapseRuns_noAdjacent (s : List Char) :
    spec.noAdjacentUnderscores (spec.collapseRuns false s) = true ∧
      spec.noAdjacentUnderscores ('_' :: spec.collapseRuns true s) = true := by
  induction s with
  | nil => exact ⟨rfl, rfl⟩
  | cons c cs ih =>
    by_cases hc : isLetter c = true
    · have hne : c ≠ '_' := by
        rintro rfl
        exact absurd hc (by decide)
      have h1 : spec.noAdjacentUnderscores (c :: spec.collapseRuns false cs) = true :=
        noAdjacent_cons c _ hne ih.1
      simp only [spec.collapseRuns, hc, if_true]
      exact ⟨h1, noAdjacent_underscore_cons c _ hne h1⟩
    · simp only [spec.collapseRuns, hc, Bool.false_eq_true, if_false, if_true]
      exact ⟨ih.2, ih.2⟩

theorem replaceKeyChars_run (run rest : List Char) (hne : run ≠ [])
    (hrun : ∀ c ∈ run, nonLetter c = true) (hrest : span nonLetter rest = 0) :
    replaceKeyChars 0 (run ++ rest) = '_' :: replaceKeyChars 0 rest := by
  cases run with
  | nil => exact absurd rfl hne
  | cons c cs =>
    have hc : nonLetter c = true := hrun c (List.mem_cons_self _ _)
    have hcs : ∀ d ∈ cs, nonLetter d = true := fun d hd => hrun d (List.mem_cons_of_mem _ hd)
    rw [List.cons_append, replaceKeyChars_nonLetter c _ hc, span_append nonLetter cs rest hcs,
      hrest, Nat.add_zero, List.drop_left]

/-- C18: the prefix fragment of the shortening branch is the first field name with every
maximal run of characters that are not ASCII letters replaced by exactly one underscore
and the letters kept in order: a letter is copied, a run of non-letters that ends at a
letter or at the end of the name becomes one underscore. Hence the fragment holds only
ASCII letters and underscores, no two adjacent underscores, and exactly the letters of
the name; and it is computed from the first field name alone. -/
theorem sanitizeField_collapses (field : String) :
    (sanitizeField field).data = spec.collapseRuns false field.data ∧
    (∀ c cs, isLetter c = true → replaceKeyChars 0 (c :: cs) = c :: replaceKeyChars 0 cs) ∧
    (∀ run rest, run ≠ [] → (∀ c ∈ run, nonLetter c = true) → span nonLetter rest = 0 →
      replaceKeyChars 0 (run ++ rest) = '_' :: replaceKeyChars 0 rest) ∧
    (∀ c ∈ (sanitizeField field).data, c = '_' ∨ isLetter c = true) ∧
    spec.noAdjacentUnderscores (sanitizeField field).data = true ∧
    (sanitizeField field).data.filter isLetter = field.data.filter isLetter ∧
    (∀ kind tableName rest,
      30 < utf8.RuneCountInString
        (commonDialect.BuildKeyName kind tableName (field :: rest)) →
      ∃ digest, oracle.BuildKeyName kind tableName (field :: rest) =
        some (String.mk (((sanitizeField field).data ++ digest).take 29))) := by
  have hdata : (sanitizeField field).data = spec.collapseRuns false field.data :=
    replaceKeyChars_collapse field.data
  refine ⟨hdata, replaceKeyChars_letter, replaceKeyChars_run,
    replaceKeyChars_mem field.data 0, ?_, ?_, ?_⟩
  · rw [hdata]
    exact (collapseRuns_noAdjacent field.data).1
  · rw [hdata]
    exact collapseRuns_filter field.data false
  · intro kind tableName rest h
    refine ⟨fmt.hexBytes (sha1.Sum (utf8.bytes
      (commonDialect.BuildKeyName kind tableName (field :: rest)))), ?_⟩
    rw [BuildKeyName_long kind tableName field rest h, shortName_data]

